import Mathlib

/-!
Verification development for a source-to-source transpiler written in Rust
(a lexer in `tokenizer.rs` and a class/namespace/import/lowering pipeline in
`lib.rs`).  Strings are modelled as byte lists (`List Nat`), matching the
Rust code's byte-level indexing of `&str` (`s.as_bytes()[i] as char`).
Rust `str` slicing panics when an index is not a UTF-8 character boundary;
such panics are modelled by `Option` results (`none` = panic).
All loops are embedded with an explicit fuel argument; each loop iteration
consumes one unit of fuel, and the top-level wrappers supply enough fuel
for the loop to run to completion (each iteration advances the index).
-/

namespace ZLang

/-- Bytes of an ASCII string literal (every literal in this file is ASCII). -/
def bs (s : String) : List Nat := s.data.map Char.toNat

/-- Rust `char::is_whitespace` restricted to code points 0..255
(the bytes reinterpreted as chars by the lexer): 0x09-0x0D, 0x20, 0x85, 0xA0. -/
def isWhitespaceByte (b : Nat) : Bool :=
  b == 32 || (9 ≤ b && b ≤ 13) || b == 133 || b == 160

/-- Rust `char::is_ascii_digit`. -/
def isAsciiDigitB (b : Nat) : Bool := 48 ≤ b && b ≤ 57

/-- Rust `char::is_ascii_hexdigit`. -/
def isAsciiHexDigitB (b : Nat) : Bool :=
  isAsciiDigitB b || (97 ≤ b && b ≤ 102) || (65 ≤ b && b ≤ 70)

/-- Rust `char::is_alphabetic` restricted to code points 0..255:
A-Z, a-z, 0xAA, 0xB5, 0xBA, 0xC0-0xD6, 0xD8-0xF6, 0xF8-0xFF. -/
def isAlphabeticByte (b : Nat) : Bool :=
  (65 ≤ b && b ≤ 90) || (97 ≤ b && b ≤ 122) || b == 170 || b == 181 ||
  b == 186 || (192 ≤ b && b ≤ 214) || (216 ≤ b && b ≤ 246) ||
  (248 ≤ b && b ≤ 255)

/-- Rust `char::is_alphanumeric` restricted to code points 0..255:
alphabetic plus 0-9, ², ³, ¹ and ¼, ½, ¾. -/
def isAlphanumericByte (b : Nat) : Bool :=
  isAlphabeticByte b || isAsciiDigitB b || b == 178 || b == 179 || b == 185 ||
  (188 ≤ b && b ≤ 190)

/-- Rust `str::is_char_boundary`: true at the end of the string or at a byte
that is not a UTF-8 continuation byte. -/
def isCharBoundaryB (s : List Nat) (i : Nat) : Bool :=
  match s[i]? with
  | none => i == s.length
  | some b => b < 128 || 192 ≤ b

/-- Rust `&s[a..b]` on a `str`: returns the byte slice, or `none` (panic) when
an index is out of bounds, not a char boundary, or the range is inverted. -/
def sliceB (s : List Nat) (a b : Nat) : Option (List Nat) :=
  if a ≤ b && isCharBoundaryB s a && isCharBoundaryB s b then
    some ((s.drop a).take (b - a))
  else none

/-- Rust `char::to_string` of the char with code point `b < 256`:
one UTF-8 byte below 0x80, two bytes otherwise. -/
def charToString (b : Nat) : List Nat :=
  if b < 128 then [b] else [192 + b / 64, 128 + b % 64]

/-- `Token` from tokenizer.rs, with the `String` payloads as byte lists. -/
inductive Token where
  | identifier (s : List Nat)
  | number (s : List Nat)
  | stringLit (s : List Nat)
  | charLit (s : List Nat)
  | symbol (s : List Nat)
  | comment (s : List Nat)
  | newline
  | eof
deriving DecidableEq, Repr

/-- Count of leading bytes satisfying `p` (used for the lexer's inner
`while` scans, which advance one byte per iteration). -/
def countWhile (p : Nat → Bool) : List Nat → Nat
  | [] => 0
  | b :: rest => if p b then countWhile p rest + 1 else 0

/-- Bytes consumed by the block-comment scan of tokenizer.rs starting just
after `/*`: advance until `*/` (consuming it) or until fewer than two bytes
remain. -/
def blockScan : List Nat → Nat
  | a :: b :: rest => if a == 42 && b == 47 then 2 else 1 + blockScan (b :: rest)
  | _ => 0

/-- Bytes consumed by the string/char-literal scan of tokenizer.rs starting
just after the opening quote `q`: a backslash skips the following byte, the
closing quote is consumed, and the count may overrun the input by one when a
trailing backslash skips past the end. -/
def stringScan (q : Nat) : List Nat → Nat
  | [] => 0
  | c :: rest =>
    if c == 92 then
      match rest with
      | [] => 2
      | _ :: rest2 => 2 + stringScan q rest2
    else if c == q then 1 else 1 + stringScan q rest

/-- Index just past the optional fractional part starting at `j1`
(the `if i < len && s[i] == '.'` step of the number branch). -/
def fractionEnd (s : List Nat) (j1 : Nat) : Nat :=
  match s[j1]? with
  | some c =>
    if c == 46 then j1 + 1 + countWhile isAsciiDigitB (s.drop (j1 + 1)) else j1
  | none => j1

/-- Index just past the optional exponent sign following `e`/`E` at `j2`. -/
def signEnd (s : List Nat) (j2 : Nat) : Nat :=
  match s[j2 + 1]? with
  | some sgn => if sgn == 43 || sgn == 45 then j2 + 2 else j2 + 1
  | none => j2 + 1

/-- Index just past the optional exponent part starting at `j2`. -/
def exponentEnd (s : List Nat) (j2 : Nat) : Nat :=
  match s[j2]? with
  | some c =>
    if c == 101 || c == 69 then
      signEnd s j2 + countWhile isAsciiDigitB (s.drop (signEnd s j2))
    else j2
  | none => j2

/-- Index just past the number starting at `i` (the decimal/float/exponent
arm of the number branch of `tokenize`): integer digits, then an optional
fraction, then an optional exponent with optional sign. -/
def numberEnd (s : List Nat) (i : Nat) : Nat :=
  exponentEnd s (fractionEnd s (i + countWhile isAsciiDigitB (s.drop i)))

/-- The operator/punctuator table of `tokenize` after its stable
length-descending sort (the source list already has the two three-byte
operators first, so the sort is the identity). -/
def opsList : List (List Nat) :=
  [bs ">>=", bs "<<=", bs "==", bs "!=", bs "<=", bs ">=", bs "->",
   bs "++", bs "--", bs "&&", bs "||", bs "+=", bs "-=", bs "*=",
   bs "/=", bs "%=", bs "&=", bs "|=", bs "^=", bs "<<", bs ">>",
   bs "::", bs "=>"]

/-- The operator-matching loop of `tokenize`: try each table entry in order,
skipping entries that do not fit; `none` models the panic of slicing at a
non-boundary, `some none` is "no match". -/
def findOp (s : List Nat) (i : Nat) : List (List Nat) → Option (Option (List Nat))
  | [] => some none
  | op :: rest =>
    if i + op.length ≤ s.length then
      match sliceB s i (i + op.length) with
      | none => none
      | some sl => if sl == op then some (some op) else findOp s i rest
    else findOp s i rest

/-- The main loop of `tokenize` (tokenizer.rs).  One fuel unit per loop
iteration; the wrapper `tokenize` supplies `s.length + 1`, which suffices
because every iteration advances `i` by at least one.  Fuel exhaustion and
`i` past the end both produce the post-loop `[Eof]`; `none` models a panic
from slicing a `str` at a non-UTF-8-boundary byte index. -/
def tokenizeLoop (s : List Nat) : Nat → Nat → Option (List Token)
  | 0, _ => some [Token.eof]
  | fuel + 1, i =>
    match s[i]? with
    | none => some [Token.eof]
    | some ch =>
      if ch == 10 then
        (tokenizeLoop s fuel (i + 1)).map (Token.newline :: ·)
      else if isWhitespaceByte ch then
        tokenizeLoop s fuel (i + 1)
      else if ch == 47 && decide (i + 1 < s.length) && (s[i+1]?).getD 0 == 47 then
        let j := i + 2 + countWhile (fun b => !(b == 10)) (s.drop (i + 2))
        match sliceB s i j with
        | none => none
        | some text => (tokenizeLoop s fuel j).map (Token.comment text :: ·)
      else if ch == 47 && decide (i + 1 < s.length) && (s[i+1]?).getD 0 == 42 then
        let j := i + 2 + blockScan (s.drop (i + 2))
        match sliceB s i (min j s.length) with
        | none => none
        | some text => (tokenizeLoop s fuel j).map (Token.comment text :: ·)
      else if ch == 34 || ch == 39 then
        let j := i + 1 + stringScan ch (s.drop (i + 1))
        match sliceB s i (min j s.length) with
        | none => none
        | some text =>
          if ch == 34 then
            (tokenizeLoop s fuel j).map (Token.stringLit text :: ·)
          else
            (tokenizeLoop s fuel j).map (Token.charLit text :: ·)
      else if isAsciiDigitB ch ||
              (ch == 46 && decide (i + 1 < s.length) &&
               isAsciiDigitB ((s[i+1]?).getD 0)) then
        let j :=
          if ch == 48 && decide (i + 1 < s.length) &&
             ((s[i+1]?).getD 0 == 120 || (s[i+1]?).getD 0 == 88) then
            i + 2 + countWhile isAsciiHexDigitB (s.drop (i + 2))
          else numberEnd s i
        match sliceB s i (min j s.length) with
        | none => none
        | some text => (tokenizeLoop s fuel j).map (Token.number text :: ·)
      else if ch == 95 || isAlphabeticByte ch then
        let j := i + 1 + countWhile (fun b => b == 95 || isAlphanumericByte b) (s.drop (i + 1))
        match sliceB s i j with
        | none => none
        | some text => (tokenizeLoop s fuel j).map (Token.identifier text :: ·)
      else
        match findOp s i opsList with
        | none => none
        | some (some op) =>
          (tokenizeLoop s fuel (i + op.length)).map (Token.symbol op :: ·)
        | some none =>
          (tokenizeLoop s fuel (i + 1)).map (Token.symbol (charToString ch) :: ·)

/-- `tokenize` from tokenizer.rs; `none` models a slicing panic. -/
def tokenize (s : List Nat) : Option (List Token) :=
  tokenizeLoop s (s.length + 1) 0

/-- Position `i` holds a byte recognized by no lexer rule: every guard of
the `tokenizeLoop` cascade (written verbatim, negated) is false and the
operator table finds no match, so only the final fall-through arm of the
loop can apply there. -/
def unrecognizedAt (s : List Nat) (i : Nat) : Bool :=
  match s[i]? with
  | none => false
  | some ch =>
    !(ch == 10) && !isWhitespaceByte ch &&
    !(ch == 47 && decide (i + 1 < s.length) && ((s[i+1]?).getD 0 == 47)) &&
    !(ch == 47 && decide (i + 1 < s.length) && ((s[i+1]?).getD 0 == 42)) &&
    !(ch == 34 || ch == 39) &&
    !(isAsciiDigitB ch ||
      (ch == 46 && decide (i + 1 < s.length) &&
       isAsciiDigitB ((s[i+1]?).getD 0))) &&
    !(ch == 95 || isAlphabeticByte ch) &&
    decide (findOp s i opsList = some none)

/-- `needs_space` from tokenizer.rs (the match arms in source order). -/
def needs_space (prev cur : Token) : Bool :=
  match prev, cur with
  | Token.newline, _ => false
  | _, Token.newline => false
  | Token.comment _, _ => false
  | Token.symbol a, Token.symbol b =>
    if a == bs "(" || b == bs ")" || a == bs "[" || b == bs "]" then false
    else if a == bs "." || b == bs "." then false
    else if a == bs "->" || b == bs "->" then false
    else if a == bs "<" || b == bs ">" then false
    else if a == bs ";" || b == bs ";" || a == bs "," || b == bs "," then false
    else true
  | Token.identifier _, Token.symbol s =>
    !(s == bs "(" || s == bs "[" || s == bs "." || s == bs "->" ||
      s == bs ";" || s == bs "," || s == bs ">")
  | Token.symbol s, Token.identifier _ =>
    !(s == bs "(" || s == bs "[" || s == bs "." || s == bs "->" ||
      s == bs "!" || s == bs "~" || s == bs "*" || s == bs "&" ||
      s == bs "+" || s == bs "-" || s == bs "<")
  | Token.symbol s, Token.number _ =>
    !(s == bs "(" || s == bs "[" || s == bs "." || s == bs "->" ||
      s == bs "!" || s == bs "~" || s == bs "*" || s == bs "&" ||
      s == bs "+" || s == bs "-" || s == bs "<")
  | Token.number _, Token.symbol s =>
    !(s == bs "(" || s == bs "[" || s == bs "." || s == bs "->" ||
      s == bs ";" || s == bs "," || s == bs ">" || s == bs ")" || s == bs "]")
  | Token.identifier _, Token.identifier _ => true
  | Token.identifier _, Token.number _ => true
  | Token.number _, Token.identifier _ => true
  | Token.number _, Token.number _ => true
  | Token.stringLit _, _ => true
  | _, Token.stringLit _ => true
  | Token.charLit _, _ => true
  | _, Token.charLit _ => true
  | _, _ => true

/-- The text a token contributes to detokenized output (newlines print as a
line break, `Eof` prints nothing). -/
def tokenText : Token → List Nat
  | Token.identifier s => s
  | Token.number s => s
  | Token.stringLit s => s
  | Token.charLit s => s
  | Token.symbol s => s
  | Token.comment s => s
  | Token.newline => [10]
  | Token.eof => []

/-- The loop of `detokenize`: `prev` is the previous printed token (Eof
tokens are skipped without updating it, as in the source). -/
def detokLoop : Option Token → List Token → List Nat
  | _, [] => []
  | prev, t :: rest =>
    if t == Token.eof then detokLoop prev rest
    else
      let sp : List Nat :=
        match prev with
        | some p => if needs_space p t then [32] else []
        | none => []
      sp ++ tokenText t ++ detokLoop (some t) rest

/-- `detokenize` from tokenizer.rs. -/
def detokenize (ts : List Token) : List Nat := detokLoop none ts

/-! ## lib.rs: data model -/

/-- `Variable` from lib.rs. -/
structure Variable where
  name : List Nat
  type_ : List Nat
deriving DecidableEq, Repr

/-- `Variable::to_string`. -/
def Variable.toString (v : Variable) : List Nat :=
  v.type_ ++ bs " " ++ v.name ++ bs ";"

/-- `Function` from lib.rs (`namespace` renamed to `namespace_`). -/
structure Function where
  class_name : List Nat
  namespace_ : Option (List Nat)
  name : List Nat
  return_type : List Nat
  params : List (List Nat)
  body_tokens : List Token
deriving DecidableEq, Repr

/-- `Function::to_string`: body tokens joined with single spaces (the same
per-token text map as the detokenizer: `Newline` prints a line break and
`Eof` prints nothing), a leading `FullName self` parameter, and a comma
before the declared parameters exactly when there are any. -/
def Function.toString (f : Function) : List Nat :=
  let joined := List.intercalate (bs " ") (f.body_tokens.map tokenText)
  let full_class_name :=
    match f.namespace_ with
    | some ns => ns ++ bs "_" ++ f.class_name
    | none => f.class_name
  let params :=
    if f.params.isEmpty then [] else bs "," ++ List.intercalate (bs ", ") f.params
  f.return_type ++ bs " " ++ full_class_name ++ bs "_" ++ f.name ++ bs "(" ++
    full_class_name ++ bs " self" ++ params ++ bs ")\x7b" ++ joined ++ bs "\x7d"

/-- `OperatorOverload` from lib.rs. -/
structure OperatorOverload where
  class_name : List Nat
  namespace_ : Option (List Nat)
  operator : List Nat
  return_type : List Nat
  params : List (List Nat)
  body_tokens : List Token
deriving DecidableEq, Repr

/-- The operator-symbol → canonical-suffix table of `OperatorOverload::to_string`. -/
def overloadOpName (op : List Nat) : List Nat :=
  if op == bs "+" then bs "add"
  else if op == bs "-" then bs "sub"
  else if op == bs "*" then bs "mul"
  else if op == bs "/" then bs "div"
  else if op == bs "==" then bs "eq"
  else if op == bs "!=" then bs "neq"
  else if op == bs "<" then bs "lt"
  else if op == bs ">" then bs "gt"
  else if op == bs "<=" then bs "le"
  else if op == bs ">=" then bs "ge"
  else if op == bs "+=" then bs "add_assign"
  else if op == bs "-=" then bs "sub_assign"
  else if op == bs "*=" then bs "mul_assign"
  else if op == bs "/=" then bs "div_assign"
  else if op == bs "++" then bs "increment"
  else if op == bs "--" then bs "decrement"
  else if op == bs "[]" then bs "index"
  else bs "unknown_op"

/-- `OperatorOverload::to_string`. -/
def OperatorOverload.toString (o : OperatorOverload) : List Nat :=
  let joined := List.intercalate (bs " ") (o.body_tokens.map tokenText)
  let full_class_name :=
    match o.namespace_ with
    | some ns => ns ++ bs "_" ++ o.class_name
    | none => o.class_name
  o.return_type ++ bs " " ++ full_class_name ++ bs "_operator_" ++
    overloadOpName o.operator ++ bs "(" ++ full_class_name ++ bs " self, " ++
    List.intercalate (bs ", ") o.params ++ bs ")\x7b" ++ joined ++ bs "\x7d"

/-- `Class` from lib.rs. -/
structure Class where
  name : List Nat
  namespace_ : Option (List Nat)
  variables_ : List Variable
  functions : List Function
  operators : List OperatorOverload
deriving DecidableEq, Repr

/-- `Class::to_string`: the typedef struct (fields concatenated with no
separator), then every method, then every operator. -/
def Class.toString (c : Class) : List Nat :=
  let full_name :=
    match c.namespace_ with
    | some ns => ns ++ bs "_" ++ c.name
    | none => c.name
  bs "typedef struct \x7b " ++ (c.variables_.map Variable.toString).flatten ++
    bs " \x7d " ++ full_name ++ bs ";\n" ++
    (c.functions.map Function.toString).flatten ++
    (c.operators.map OperatorOverload.toString).flatten

/-- The `HashMap<String, String>` registry of short class name → full name.
Modelled as an association list with unique keys; `regInsert` overwrites an
existing key (HashMap insert semantics) and `regLookup` is `HashMap::get`. -/
abbrev Registry := List (List Nat × List Nat)

/-- `HashMap::insert` (overwrite semantics). -/
def regInsert (k v : List Nat) (r : Registry) : Registry :=
  if r.any (fun p => p.1 == k) then
    r.map (fun p => if p.1 == k then (k, v) else p)
  else r ++ [(k, v)]

/-- `HashMap::get`. -/
def regLookup (r : Registry) (k : List Nat) : Option (List Nat) :=
  (r.find? (fun p => p.1 == k)).map (fun p => p.2)

/-! ## lib.rs: structural parsing -/

/-- `parse_namespace_declaration` from lib.rs: matches `namespace Name {`
at `start_index` and returns the name with the content start index.
The Rust code indexes `tokens[start_index]` directly (all callers guard
`start_index < tokens.len()`); out-of-range yields `none` here. -/
def parse_namespace_declaration (tokens : List Token) (start_index : Nat) :
    Option (List Nat × Nat) :=
  match tokens[start_index]? with
  | some (Token.identifier keyword) =>
    if keyword == bs "namespace" then
      match tokens[start_index + 1]?, tokens[start_index + 2]? with
      | some (Token.identifier namespace_name), some (Token.symbol brace) =>
        if brace == bs "\x7b" then some (namespace_name, start_index + 3) else none
      | _, _ => none
    else none
  | _ => none

/-- The brace-depth loop shared by `find_namespace_end` and the class-span
skip of `replace_class_tokens`: advance while the index is in range and the
level is positive, and return the index just past the brace that brings the
level to zero. -/
def findNsEndLoop (tokens : List Token) : Nat → Nat → Nat → Nat
  | 0, _, i => i
  | fuel + 1, brace_level, i =>
    if i < tokens.length ∧ 0 < brace_level then
      let level' :=
        match tokens[i]? with
        | some (Token.symbol s) =>
          if s == bs "\x7b" then brace_level + 1
          else if s == bs "\x7d" then brace_level - 1
          else brace_level
        | _ => brace_level
      findNsEndLoop tokens fuel level' (i + 1)
    else i

/-- `find_namespace_end` from lib.rs (starts with `brace_level = 1`). -/
def find_namespace_end (tokens : List Token) (start_index : Nat) : Nat :=
  findNsEndLoop tokens (tokens.length + 1) 1 start_index

/-- The body-capture loop shared by `parse_operator_overload`,
`parse_functions_with_operators` and the class-body capture of
`compile_with_context`: depth starts at 1 just after the opening brace, a
token is kept when the level after processing it is still positive (so the
terminating brace is excluded), and the index just past the terminating
brace is returned. -/
def collectBody (tokens : List Token) : Nat → Nat → Nat → List Token × Nat
  | 0, _, b => ([], b)
  | fuel + 1, brace_level, b =>
    if b < tokens.length ∧ 0 < brace_level then
      let t := (tokens[b]?).getD Token.eof
      let level' :=
        match t with
        | Token.symbol s =>
          if s == bs "\x7b" then brace_level + 1
          else if s == bs "\x7d" then brace_level - 1
          else brace_level
        | _ => brace_level
      let r := collectBody tokens fuel level' (b + 1)
      (if 0 < level' then t :: r.1 else r.1, r.2)
    else ([], b)

/-- The parameter-list loop shared by `parse_operator_overload` and the
function arm of `parse_functions_with_operators`: `)` ends the scan, `,` is
skipped, a `Type name` identifier pair is recorded as `"Type name"`, and
anything else is skipped token by token. -/
def paramScanLoop (tokens : List Token) : Nat → Nat → List (List Nat) × Nat
  | 0, p => ([], p)
  | fuel + 1, p =>
    match tokens[p]? with
    | none => ([], p)
    | some (Token.symbol sym) =>
      if sym == bs ")" then ([], p + 1)
      else if sym == bs "," then paramScanLoop tokens fuel (p + 1)
      else paramScanLoop tokens fuel (p + 1)
    | some (Token.identifier param_type) =>
      if p + 1 < tokens.length then
        match tokens[p + 1]? with
        | some (Token.identifier param_name) =>
          let r := paramScanLoop tokens fuel (p + 2)
          ((param_type ++ bs " " ++ param_name) :: r.1, r.2)
        | _ => paramScanLoop tokens fuel (p + 1)
      else paramScanLoop tokens fuel (p + 1)
    | some _ => paramScanLoop tokens fuel (p + 1)

/-- The opening-brace search loop shared by `parse_operator_overload` and
the function arm of `parse_functions_with_operators`. -/
def findOpenBrace (tokens : List Token) : Nat → Nat → Nat
  | 0, p => p
  | fuel + 1, p =>
    match tokens[p]? with
    | none => p
    | some (Token.symbol s) =>
      if s == bs "\x7b" then p else findOpenBrace tokens fuel (p + 1)
    | some _ => findOpenBrace tokens fuel (p + 1)

/-- `parse_operator_overload` from lib.rs: matches
`ReturnType operator <single-symbol-token> ( params ) { body }` and returns
the overload with the index just past the body's closing brace. -/
def parse_operator_overload (tokens : List Token) (start_index : Nat)
    (class_name : List Nat) (ns : Option (List Nat)) :
    Option (OperatorOverload × Nat) :=
  if tokens.length ≤ start_index + 4 then none
  else
    match tokens[start_index]?, tokens[start_index + 1]?,
          tokens[start_index + 2]?, tokens[start_index + 3]? with
    | some (Token.identifier return_type), some (Token.identifier keyword),
      some (Token.symbol op_symbol), some (Token.symbol left_paren) =>
      if keyword == bs "operator" && left_paren == bs "(" then
        let pr := paramScanLoop tokens (tokens.length + 1) (start_index + 4)
        let p := findOpenBrace tokens (tokens.length + 1) pr.2
        match tokens[p]? with
        | some (Token.symbol s) =>
          if s == bs "\x7b" then
            let br := collectBody tokens (tokens.length + 1) 1 (p + 1)
            some (⟨class_name, ns, op_symbol, return_type, pr.1, br.1⟩, br.2)
          else none
        | _ => none
      else none
    | _, _, _, _ => none

/-- The loop of `parse_functions_with_operators`: at each index try an
operator overload first, then the plain-function pattern
`ReturnType name ( params ) { body }`.  The `p < len` failure after the
brace search is Rust's `break` (loop exit without a push); the arm where
`tokens[p]` is not a symbol is unreachable in Rust (the brace search stops
only at `{` while in range) and is translated as the source writes it:
push with `i` unchanged. -/
def parseFnLoop (tokens : List Token) (cls : List Nat) (ns : Option (List Nat)) :
    Nat → Nat → List Function × List OperatorOverload
  | 0, _ => ([], [])
  | fuel + 1, i =>
    if i < tokens.length then
      match parse_operator_overload tokens i cls ns with
      | some opr =>
        let r := parseFnLoop tokens cls ns fuel opr.2
        (r.1, opr.1 :: r.2)
      | none =>
        if i + 2 < tokens.length then
          match tokens[i]?, tokens[i + 1]?, tokens[i + 2]? with
          | some (Token.identifier ret_type), some (Token.identifier name),
            some (Token.symbol sym) =>
            if sym == bs "(" then
              let pr := paramScanLoop tokens (tokens.length + 1) (i + 3)
              let p := findOpenBrace tokens (tokens.length + 1) pr.2
              if p < tokens.length then
                match tokens[p]? with
                | some (Token.symbol s) =>
                  if s == bs "\x7b" then
                    let br := collectBody tokens (tokens.length + 1) 1 (p + 1)
                    let r := parseFnLoop tokens cls ns fuel br.2
                    ((⟨cls, ns, name, ret_type, pr.1, br.1⟩ : Function) :: r.1, r.2)
                  else parseFnLoop tokens cls ns fuel (i + 1)
                | _ =>
                  let r := parseFnLoop tokens cls ns fuel i
                  ((⟨cls, ns, name, ret_type, pr.1, []⟩ : Function) :: r.1, r.2)
              else ([], [])
            else parseFnLoop tokens cls ns fuel (i + 1)
          | _, _, _ => parseFnLoop tokens cls ns fuel (i + 1)
        else parseFnLoop tokens cls ns fuel (i + 1)
    else ([], [])

/-- `parse_functions_with_operators` from lib.rs. -/
def parse_functions_with_operators (tokens : List Token) (cls : List Nat)
    (ns : Option (List Nat)) : List Function × List OperatorOverload :=
  parseFnLoop tokens cls ns (tokens.length + 1) 0

/-- The skip-to-semicolon loop of the variable scans. -/
def findSemicolon (tokens : List Token) : Nat → Nat → Nat
  | 0, j => j
  | fuel + 1, j =>
    match tokens[j]? with
    | none => j
    | some (Token.symbol s) =>
      if s == bs ";" then j else findSemicolon tokens fuel (j + 1)
    | some _ => findSemicolon tokens fuel (j + 1)

/-- The variable-collection loop: `Type name ;` or `Type name = … ;`
(initializer skipped up to the semicolon).  The bodies of
`collect_all_variables_with_namespace` and `parse_variables` in lib.rs are
identical; both wrappers below use this loop. -/
def collectVarsLoop (tokens : List Token) : Nat → Nat → List Variable
  | 0, _ => []
  | fuel + 1, i =>
    if i + 2 < tokens.length then
      match tokens[i]?, tokens[i + 1]?, tokens[i + 2]? with
      | some (Token.identifier type_), some (Token.identifier name),
        some (Token.symbol sym) =>
        if sym == bs ";" then
          (⟨name, type_⟩ : Variable) :: collectVarsLoop tokens fuel (i + 3)
        else if sym == bs "=" then
          let j := findSemicolon tokens (tokens.length + 1) (i + 3)
          (⟨name, type_⟩ : Variable) :: collectVarsLoop tokens fuel (j + 1)
        else collectVarsLoop tokens fuel (i + 1)
      | _, _, _ => collectVarsLoop tokens fuel (i + 1)
    else []

/-- `collect_all_variables_with_namespace` from lib.rs (the `class_names`
argument is unused in the source too). -/
def collect_all_variables_with_namespace (tokens : List Token)
    (_class_names : Registry) : List Variable :=
  collectVarsLoop tokens (tokens.length + 1) 0

/-- `parse_variables` from lib.rs. -/
def parse_variables (tokens : List Token) : List Variable :=
  collectVarsLoop tokens (tokens.length + 1) 0

/-! ## lib.rs: call-site lowering -/

/-- The binary-operator list of the lowering pass
(`matches!(operator.as_str(), "+" | … | "/=")`). -/
def isBinaryOp (s : List Nat) : Bool :=
  s == bs "+" || s == bs "-" || s == bs "*" || s == bs "/" || s == bs "==" ||
  s == bs "!=" || s == bs "<" || s == bs ">" || s == bs "<=" || s == bs ">=" ||
  s == bs "+=" || s == bs "-=" || s == bs "*=" || s == bs "/="

/-- The binary operator → name table of the lowering pass (no `[]` entry). -/
def binOpName (s : List Nat) : List Nat :=
  if s == bs "+" then bs "add"
  else if s == bs "-" then bs "sub"
  else if s == bs "*" then bs "mul"
  else if s == bs "/" then bs "div"
  else if s == bs "==" then bs "eq"
  else if s == bs "!=" then bs "neq"
  else if s == bs "<" then bs "lt"
  else if s == bs ">" then bs "gt"
  else if s == bs "<=" then bs "le"
  else if s == bs ">=" then bs "ge"
  else if s == bs "+=" then bs "add_assign"
  else if s == bs "-=" then bs "sub_assign"
  else if s == bs "*=" then bs "mul_assign"
  else if s == bs "/=" then bs "div_assign"
  else bs "unknown_op"

/-- The `++`/`--` → name table of the lowering pass. -/
def unaryOpName (s : List Nat) : List Nat :=
  if s == bs "++" then bs "increment"
  else if s == bs "--" then bs "decrement"
  else bs "unknown_op"

/-- The balanced-parenthesis argument collector of the method-call rule:
depth starts at 1 just after the call's `(`; a closing parenthesis is kept
only while the level stays positive, so the terminating `)` is excluded;
returns the collected argument tokens and the index just past it. -/
def parenScanLoop (tokens : List Token) : Nat → Nat → Nat → List Token × Nat
  | 0, _, p => ([], p)
  | fuel + 1, paren_level, p =>
    if p < tokens.length ∧ 0 < paren_level then
      let t := (tokens[p]?).getD Token.eof
      match t with
      | Token.symbol s =>
        if s == bs "(" then
          let r := parenScanLoop tokens fuel (paren_level + 1) (p + 1)
          (t :: r.1, r.2)
        else if s == bs ")" then
          let level' := paren_level - 1
          let r := parenScanLoop tokens fuel level' (p + 1)
          (if 0 < level' then t :: r.1 else r.1, r.2)
        else
          let r := parenScanLoop tokens fuel paren_level (p + 1)
          (t :: r.1, r.2)
      | _ =>
        let r := parenScanLoop tokens fuel paren_level (p + 1)
        (t :: r.1, r.2)
    else ([], p)

/-- One iteration of the `parse_function_calls_with_operators` loop: the
rule cascade in source order (binary operator, postfix `++`/`--`, method
call — all three only for an identifier found in the variable table — then
prefix `++`/`--`, then `ns :: ident` flattening).  `some (emitted, next)`
means a rule consumed tokens; `none` means the token is copied unchanged. -/
def lowerStep (vars : List Variable) (class_names : Registry)
    (tokens : List Token) (i : Nat) : Option (List Token × Nat) :=
  let varRule : Option (List Token × Nat) :=
    match tokens[i]? with
    | some (Token.identifier left_operand) =>
      match vars.find? (fun v => v.name == left_operand) with
      | some var =>
        let cls := (regLookup class_names var.type_).getD var.type_
        let opRule : Option (List Token × Nat) :=
          if i + 2 < tokens.length then
            match tokens[i + 1]? with
            | some (Token.symbol operator) =>
              if isBinaryOp operator then
                some ([Token.identifier (cls ++ bs "_operator_" ++ binOpName operator),
                       Token.symbol (bs "("), Token.identifier left_operand,
                       Token.symbol (bs ","), (tokens[i + 2]?).getD Token.eof,
                       Token.symbol (bs ")")], i + 3)
              else if operator == bs "++" || operator == bs "--" then
                some ([Token.identifier (cls ++ bs "_operator_" ++ unaryOpName operator),
                       Token.symbol (bs "("), Token.identifier left_operand,
                       Token.symbol (bs ")")], i + 2)
              else none
            | _ => none
          else none
        match opRule with
        | some r => some r
        | none =>
          if i + 3 < tokens.length then
            match tokens[i + 1]?, tokens[i + 2]?, tokens[i + 3]? with
            | some (Token.symbol dot), some (Token.identifier method_name),
              some (Token.symbol left_paren) =>
              if dot == bs "." && left_paren == bs "(" then
                let pr := parenScanLoop tokens (tokens.length + 1) 1 (i + 4)
                some ([Token.identifier (cls ++ bs "_" ++ method_name),
                       Token.symbol (bs "("), Token.identifier left_operand] ++
                      (if pr.1.isEmpty then [] else Token.symbol (bs ",") :: pr.1) ++
                      [Token.symbol (bs ")")], pr.2)
              else none
            | _, _, _ => none
          else none
      | none => none
    | _ => none
  match varRule with
  | some r => some r
  | none =>
    let prefixRule : Option (List Token × Nat) :=
      match tokens[i]? with
      | some (Token.symbol operator) =>
        if (operator == bs "++" || operator == bs "--") &&
           decide (i + 1 < tokens.length) then
          match tokens[i + 1]? with
          | some (Token.identifier operand) =>
            match vars.find? (fun v => v.name == operand) with
            | some var =>
              let cls := (regLookup class_names var.type_).getD var.type_
              some ([Token.identifier (cls ++ bs "_operator_" ++ unaryOpName operator),
                     Token.symbol (bs "("), Token.identifier operand,
                     Token.symbol (bs ")")], i + 2)
            | none => none
          | _ => none
        else none
      | _ => none
    match prefixRule with
    | some r => some r
    | none =>
      match tokens[i]? with
      | some (Token.identifier first_part) =>
        if i + 2 < tokens.length then
          match tokens[i + 1]?, tokens[i + 2]? with
          | some (Token.symbol scope_res), some (Token.identifier second_part) =>
            if scope_res == bs "::" then
              some ([Token.identifier (first_part ++ bs "_" ++ second_part)], i + 3)
            else none
          | _, _ => none
        else none
      | _ => none

/-- The driver loop of `parse_function_calls_with_operators`. -/
def lowerLoop (vars : List Variable) (class_names : Registry)
    (tokens : List Token) : Nat → Nat → List Token
  | 0, _ => []
  | fuel + 1, i =>
    match tokens[i]? with
    | none => []
    | some t =>
      match lowerStep vars class_names tokens i with
      | some r => r.1 ++ lowerLoop vars class_names tokens fuel r.2
      | none => t :: lowerLoop vars class_names tokens fuel (i + 1)

/-- `parse_function_calls_with_operators` from lib.rs. -/
def parse_function_calls_with_operators (tokens : List Token)
    (class_names : Registry) : List Token :=
  let vars := collect_all_variables_with_namespace tokens class_names
  lowerLoop vars class_names tokens (tokens.length + 1) 0

/-! ## lib.rs: class definition emitter -/

/-- The loop of `replace_class_tokens`: a `namespace Name {` span is
replaced by its recursively processed content (the wrapper tokens and the
matching closing brace are dropped); a `class Name { … }` span whose name
matches an extracted `Class` is replaced by the re-lexed generated code
(minus its `Eof`); everything else is copied.  The `find?`-fails arm is
unreachable when the `any` check succeeded (Rust `unwrap`), and re-lexing
panics are smoothed with `getD []` (generated code is produced from token
texts; for the inputs in this development it is ASCII and never panics). -/
def replaceLoop (classes : List Class) : Nat → List Token → Nat → List Token
  | 0, _, _ => []
  | fuel + 1, tokens, i =>
    match tokens[i]? with
    | none => []
    | some t =>
      match parse_namespace_declaration tokens i with
      | some nsr =>
        let content_start := nsr.2
        let namespace_end := find_namespace_end tokens content_start
        let namespace_content :=
          (tokens.drop content_start).take (namespace_end - 1 - content_start)
        replaceLoop classes fuel namespace_content 0 ++
          replaceLoop classes fuel tokens namespace_end
      | none =>
        match t with
        | Token.identifier token_name =>
          if token_name == bs "class" then
            match tokens[i + 1]? with
            | some (Token.identifier class_name) =>
              if classes.any (fun c => c.name == class_name) then
                let st :=
                  match tokens[i + 2]? with
                  | some (Token.symbol s) =>
                    if s == bs "\x7b" then ((1 : Nat), i + 3) else ((0 : Nat), i + 2)
                  | _ => ((0 : Nat), i + 2)
                let iEnd := findNsEndLoop tokens (tokens.length + 1) st.1 st.2
                match classes.find? (fun c => c.name == class_name) with
                | some c =>
                  let generated_tokens := (tokenize (Class.toString c)).getD []
                  generated_tokens.filter (fun tk => !(tk == Token.eof)) ++
                    replaceLoop classes fuel tokens iEnd
                | none => replaceLoop classes fuel tokens iEnd
              else t :: replaceLoop classes fuel tokens (i + 1)
            | _ => t :: replaceLoop classes fuel tokens (i + 1)
          else t :: replaceLoop classes fuel tokens (i + 1)
        | _ => t :: replaceLoop classes fuel tokens (i + 1)

/-- `replace_class_tokens` from lib.rs (the quadratic fuel covers the
recursion into namespace contents). -/
def replace_class_tokens (tokens : List Token) (classes : List Class) : List Token :=
  replaceLoop classes ((tokens.length + 1) * (tokens.length + 1)) tokens 0

/-! ## lib.rs: compile_with_context passes -/

/-- The first (pre-import, registry-seeding) pass of `compile_with_context`:
track a single active namespace — entered on `namespace Name {`, cleared on
the next `}` token while one is active — and record every `class Name` as
`registry[Name] = namespace_Name` (or plain `Name`). -/
def seedLoop (tokens : List Token) : Nat → Nat → Option (List Nat) → Registry → Registry
  | 0, _, _, reg => reg
  | fuel + 1, i, current_namespace, reg =>
    match tokens[i]? with
    | none => reg
    | some t =>
      match parse_namespace_declaration tokens i with
      | some nsr => seedLoop tokens fuel nsr.2 (some nsr.1) reg
      | none =>
        if current_namespace.isSome && t == Token.symbol (bs "\x7d") then
          seedLoop tokens fuel (i + 1) none reg
        else
          match t with
          | Token.identifier keyword =>
            if keyword == bs "class" then
              match tokens[i + 1]? with
              | some (Token.identifier class_name) =>
                let full_class_name :=
                  match current_namespace with
                  | some ns => ns ++ bs "_" ++ class_name
                  | none => class_name
                seedLoop tokens fuel (i + 1) current_namespace
                  (regInsert class_name full_class_name reg)
              | _ => seedLoop tokens fuel (i + 1) current_namespace reg
            else seedLoop tokens fuel (i + 1) current_namespace reg
          | _ => seedLoop tokens fuel (i + 1) current_namespace reg

/-- The registry-seeding pass of `compile_with_context` over a whole stream. -/
def seedRegistry (tokens : List Token) (known_classes : Registry) : Registry :=
  seedLoop tokens (tokens.length + 1) 0 none known_classes

/-- The class-extraction pass of `compile_with_context` (same namespace
tracking as `seedLoop`): on `class Name {`, capture the body by brace depth
and build a `Class` from `parse_functions_with_operators` and
`parse_variables`; a `class Name` without a following `{` is recorded with
empty members, as in the source. -/
def extractLoop (tokens : List Token) : Nat → Nat → Option (List Nat) → List Class
  | 0, _, _ => []
  | fuel + 1, i, current_namespace =>
    match tokens[i]? with
    | none => []
    | some t =>
      match parse_namespace_declaration tokens i with
      | some nsr => extractLoop tokens fuel nsr.2 (some nsr.1)
      | none =>
        if current_namespace.isSome && t == Token.symbol (bs "\x7d") then
          extractLoop tokens fuel (i + 1) none
        else
          match t with
          | Token.identifier token_name =>
            if token_name == bs "class" then
              match tokens[i + 1]? with
              | some (Token.identifier class_name) =>
                match tokens[i + 2]? with
                | some (Token.symbol s) =>
                  if s == bs "\x7b" then
                    let br := collectBody tokens (tokens.length + 1) 1 (i + 3)
                    let fo := parse_functions_with_operators br.1 class_name current_namespace
                    (⟨class_name, current_namespace, parse_variables br.1, fo.1, fo.2⟩ : Class) ::
                      extractLoop tokens fuel br.2 current_namespace
                  else
                    (⟨class_name, current_namespace, [], [], []⟩ : Class) ::
                      extractLoop tokens fuel (i + 2) current_namespace
                | _ =>
                  (⟨class_name, current_namespace, [], [], []⟩ : Class) ::
                    extractLoop tokens fuel (i + 2) current_namespace
              | _ => extractLoop tokens fuel (i + 1) current_namespace
            else extractLoop tokens fuel (i + 1) current_namespace
          | _ => extractLoop tokens fuel (i + 1) current_namespace

/-- The class-extraction pass over a whole stream. -/
def extractClasses (tokens : List Token) : List Class :=
  extractLoop tokens (tokens.length + 1) 0 none

/-! ## lib.rs: import processing -/

/-- Errors of the import-processing loop: `fuelOut` models nontermination,
`indexPanic` an out-of-bounds index or out-of-range splice, `lexPanic` a
tokenizer panic, and `importPanic msg` the
`panic!("Failed to read import file: {}")` on an unreadable import. -/
inductive CErr where
  | fuelOut
  | indexPanic
  | lexPanic
  | importPanic (filename : List Nat)
deriving DecidableEq, Repr

/-- The payload scan of the import loop: identifiers and symbols are
concatenated into the filename until the closing `>`; any other token ends
the scan at that token.  Returns the filename and the terminator's index. -/
def scanPayload (tokens : List Token) : Nat → Nat → List Nat → List Nat × Nat
  | 0, j, acc => (acc, j)
  | fuel + 1, j, acc =>
    match tokens[j]? with
    | none => (acc, j)
    | some (Token.symbol s) =>
      if s == bs ">" then (acc, j)
      else scanPayload tokens fuel (j + 1) (acc ++ s)
    | some (Token.identifier s) => scanPayload tokens fuel (j + 1) (acc ++ s)
    | some _ => (acc, j)

/-- The import-processing loop of `compile_with_context`.  `fs` is the file
system (`std::fs::read_to_string`), `rc` stands for the recursive
`compile_with_context` call on an imported file's text (returning the
compiled text and the updated shared registry).  On `# import <`, the
payload is scanned, the file is read (a failed read is the fatal
`importPanic`), the compiled text is re-lexed, the whole span up to the
scan's terminator is replaced by the new tokens, and scanning resumes three
tokens past the start of the replacement, as in the source. -/
def importLoop (fs : List Nat → Option (List Nat))
    (rc : List Nat → Registry → Except CErr (List Nat × Registry)) :
    Nat → List Token → Nat → Registry → Except CErr (List Token × Registry)
  | 0, _, _, _ => Except.error CErr.fuelOut
  | fuel + 1, tokens, i, reg =>
    match tokens[i]? with
    | none => Except.ok (tokens, reg)
    | some (Token.symbol tag) =>
      if tag == bs "#" then
        match tokens[i + 1]? with
        | none => Except.error CErr.indexPanic
        | some (Token.identifier importKw) =>
          if importKw == bs "import" then
            match tokens[i + 2]? with
            | none => Except.error CErr.indexPanic
            | some (Token.symbol left_angle) =>
              if left_angle == bs "<" then
                let sp := scanPayload tokens (tokens.length + 1) (i + 3) []
                match fs sp.1 with
                | none => Except.error (CErr.importPanic sp.1)
                | some file_content =>
                  match rc file_content reg with
                  | Except.error e => Except.error e
                  | Except.ok cr =>
                    match tokenize cr.1 with
                    | none => Except.error CErr.lexPanic
                    | some imported_tokens =>
                      if sp.2 < tokens.length then
                        importLoop fs rc fuel
                          (tokens.take i ++ imported_tokens ++ tokens.drop (sp.2 + 1))
                          (i + 3) cr.2
                      else Except.error CErr.indexPanic
              else importLoop fs rc fuel tokens (i + 1) reg
            | some _ => importLoop fs rc fuel tokens (i + 1) reg
          else importLoop fs rc fuel tokens (i + 1) reg
        | some _ => importLoop fs rc fuel tokens (i + 1) reg
      else importLoop fs rc fuel tokens (i + 1) reg
    | some _ => importLoop fs rc fuel tokens (i + 1) reg

/-! ## Specification-side definitions used to state the claims -/

/-- Bytes of `ts` as printed (identical to the per-token text map used by
`detokenize` and by the body joins of the `to_string` functions). -/
def textsJoin (ts : List Token) : List Nat := (ts.map tokenText).flatten

/-- Remove every whitespace byte except newline: the comparison "equal up
to whitespace" used to state the round-trip claim (newlines are preserved
as tokens, all other whitespace is either skipped by the lexer or inserted
as single spaces by the detokenizer). -/
def stripWS (l : List Nat) : List Nat :=
  l.filter (fun b => b == 10 || !isWhitespaceByte b)

/-- Brace level after processing `l`, starting from `level` (the update the
brace-depth loops apply per token). -/
def braceLevelAfter (level : Nat) (l : List Token) : Nat :=
  l.foldl (fun lv t =>
    match t with
    | Token.symbol s =>
      if s == bs "\x7b" then lv + 1 else if s == bs "\x7d" then lv - 1 else lv
    | _ => lv) level

/-- A brace-balanced block body: the running level (starting at 1 inside
the block) stays positive on every prefix and is exactly 1 at the end, so
the next `}` is the matching closing brace. -/
def braceBalancedB (body : List Token) : Bool :=
  body.inits.all (fun q => decide (1 ≤ braceLevelAfter 1 q)) &&
    (braceLevelAfter 1 body == 1)

/-- Parenthesis level after processing `l`, starting from `level`. -/
def parenLevelAfter (level : Nat) (l : List Token) : Nat :=
  l.foldl (fun lv t =>
    match t with
    | Token.symbol s =>
      if s == bs "(" then lv + 1 else if s == bs ")" then lv - 1 else lv
    | _ => lv) level

/-- A parenthesis-balanced argument list (level starts at 1 inside the
call's parentheses, stays positive, ends at 1). -/
def parenBalancedB (args : List Token) : Bool :=
  args.inits.all (fun q => decide (1 ≤ parenLevelAfter 1 q)) &&
    (parenLevelAfter 1 args == 1)

/-- Tokens the import payload scan accumulates: identifiers and symbols
other than the closing `>`. -/
def isImportPayloadTok : Token → Bool
  | Token.identifier _ => true
  | Token.symbol s => !(s == bs ">")
  | _ => false

/-- Tokens that terminate the import payload scan early (any token that is
neither an identifier nor a symbol). -/
def stopsImportScan : Token → Bool
  | Token.number _ => true
  | Token.stringLit _ => true
  | Token.charLit _ => true
  | Token.comment _ => true
  | Token.newline => true
  | Token.eof => true
  | _ => false

/-- The text the payload scan accumulates for a list of payload tokens. -/
def payloadText (pay : List Token) : List Nat :=
  (pay.map (fun t =>
    match t with
    | Token.identifier s => s
    | Token.symbol s => s
    | _ => [])).flatten

/-! ## Helper lemmas -/

theorem getElem?_of_drop {α : Type} {l : List α} {i : Nat} {d : List α}
    (h : l.drop i = d) (j : Nat) : l[i + j]? = d[j]? := by
  rw [← List.getElem?_drop, h]

theorem length_sub_of_drop {α : Type} {l : List α} {i : Nat} {d : List α}
    (h : l.drop i = d) : l.length - i = d.length := by
  rw [← List.length_drop, h]

theorem drop_cons_tail {α : Type} {l : List α} {i : Nat} {x : α} {d : List α}
    (h : l.drop i = x :: d) : l.drop (i + 1) = d := by
  have h2 : l.drop (i + 1) = (l.drop i).drop 1 := by
    rw [List.drop_drop]
  rw [h2, h]
  rfl

/-- The import payload scan on a region `pay ++ bad :: rest` where every
token of `pay` is an accumulated identifier/symbol and `bad` stops the
scan: the result is the concatenated payload text with the index of the
stopping token. -/
theorem scanPayload_spec (pay : List Token) :
    ∀ (tokens rest : List Token) (bad : Token) (j : Nat) (acc : List Nat)
      (fuel : Nat),
      tokens.drop j = pay ++ bad :: rest →
      pay.all isImportPayloadTok = true →
      stopsImportScan bad = true →
      pay.length + 1 ≤ fuel →
      scanPayload tokens fuel j acc = (acc ++ payloadText pay, j + pay.length) := by
  induction pay with
  | nil =>
    intro tokens rest bad j acc fuel hdrop _hall hbad hfuel
    obtain ⟨f, rfl⟩ : ∃ f, fuel = f + 1 := ⟨fuel - 1, by omega⟩
    have h0 : tokens[j]? = some bad := by simpa using getElem?_of_drop hdrop 0
    cases bad <;> simp_all [scanPayload, stopsImportScan, payloadText]
  | cons t pay ih =>
    intro tokens rest bad j acc fuel hdrop hall hbad hfuel
    obtain ⟨f, rfl⟩ : ∃ f, fuel = f + 1 := ⟨fuel - 1, by omega⟩
    have h0 : tokens[j]? = some t := by simpa using getElem?_of_drop hdrop 0
    have hd1 : tokens.drop (j + 1) = pay ++ bad :: rest := drop_cons_tail hdrop
    have hfuel1 : pay.length + 1 ≤ f := by simp at hfuel; omega
    simp only [List.all_cons, Bool.and_eq_true] at hall
    cases t with
    | identifier s =>
      have := ih tokens rest bad (j + 1) (acc ++ s) f hd1 hall.2 hbad hfuel1
      simp only [scanPayload, h0, this, payloadText, List.map_cons, List.flatten_cons,
        Prod.mk.injEq]
      constructor
      · simp [payloadText, List.append_assoc]
      · simp
        omega
    | symbol s =>
      have hne : (s == bs ">") = false := by
        simpa [isImportPayloadTok] using hall.1
      have := ih tokens rest bad (j + 1) (acc ++ s) f hd1 hall.2 hbad hfuel1
      simp only [scanPayload, h0, hne, this, payloadText, List.map_cons,
        List.flatten_cons, Bool.false_eq_true, if_false, Prod.mk.injEq]
      constructor
      · simp [payloadText, List.append_assoc]
      · simp
        omega
    | number s => simp [isImportPayloadTok] at hall
    | stringLit s => simp [isImportPayloadTok] at hall
    | charLit s => simp [isImportPayloadTok] at hall
    | comment s => simp [isImportPayloadTok] at hall
    | newline => simp [isImportPayloadTok] at hall
    | eof => simp [isImportPayloadTok] at hall

theorem lt_length_of_drop_cons {α : Type} {l : List α} {i : Nat} {x : α}
    {d : List α} (h : l.drop i = x :: d) : i < l.length := by
  have := length_sub_of_drop h
  simp at this
  omega

theorem getElem?_some_lt {α : Type} {l : List α} {i : Nat} {a : α}
    (h : l[i]? = some a) : i < l.length := by
  rcases List.getElem?_eq_some.mp h with ⟨hlt, _⟩
  exact hlt

theorem drop_eq_cons_of_getElem? {α : Type} {l : List α} {i : Nat} {a : α}
    (h : l[i]? = some a) : l.drop i = a :: l.drop (i + 1) := by
  have hlt := getElem?_some_lt h
  rw [List.drop_eq_getElem_cons hlt]
  rcases List.getElem?_eq_some.mp h with ⟨_, he⟩
  rw [he]

/-- Splitting the remainder of a byte string at a later index. -/
theorem drop_split {α : Type} (s : List α) (i j : Nat) (hij : i ≤ j)
    (_hj : j ≤ s.length) :
    s.drop i = (s.drop i).take (j - i) ++ s.drop j := by
  conv_lhs => rw [← List.take_append_drop (j - i) (s.drop i)]
  congr 1
  rw [List.drop_drop]
  congr 1
  omega

theorem countWhile_le (p : Nat → Bool) (l : List Nat) :
    countWhile p l ≤ l.length := by
  induction l with
  | nil => simp [countWhile]
  | cons b rest ih =>
    by_cases h : p b = true
    · simp [countWhile, h]
      omega
    · simp [countWhile, h]

theorem blockScan_le (l : List Nat) : blockScan l ≤ l.length := by
  induction l with
  | nil => simp [blockScan]
  | cons a rest ih =>
    cases rest with
    | nil => simp [blockScan]
    | cons b rest2 =>
      by_cases h : a == 42 && b == 47
      · simp [blockScan, h]
      · simp [blockScan, h] at ih ⊢
        omega

theorem stringScan_le_aux (q : Nat) :
    ∀ (n : Nat) (l : List Nat), l.length ≤ n → stringScan q l ≤ l.length + 1 := by
  intro n
  induction n with
  | zero =>
    intro l hl
    have hnil : l = [] := List.eq_nil_of_length_eq_zero (by omega)
    subst hnil
    simp [stringScan]
  | succ n ih =>
    intro l hl
    cases l with
    | nil => simp [stringScan]
    | cons c rest =>
      by_cases hc : (c == 92) = true
      · cases rest with
        | nil =>
          rw [stringScan.eq_def]
          simp [hc]
        | cons d rest2 =>
          have hrec := ih rest2 (by simp at hl; omega)
          rw [stringScan.eq_def]
          simp [hc]
          omega
      · have hcf : (c == 92) = false := by simpa using hc
        have hrec := ih rest (by simp at hl; omega)
        rw [stringScan.eq_def]
        by_cases hq : (c == q) = true
        · simp [hcf, hq]
        · have hqf : (c == q) = false := by simpa using hq
          simp [hcf, hqf]
          omega

theorem stringScan_le (q : Nat) (l : List Nat) :
    stringScan q l ≤ l.length + 1 :=
  stringScan_le_aux q l.length l (Nat.le_refl _)

theorem fractionEnd_bounds (s : List Nat) (j1 : Nat) (h : j1 ≤ s.length) :
    j1 ≤ fractionEnd s j1 ∧ fractionEnd s j1 ≤ s.length := by
  unfold fractionEnd
  cases hsj : s[j1]? with
  | none => simp [hsj, h]
  | some c =>
    have hlt := getElem?_some_lt hsj
    have hcw := countWhile_le isAsciiDigitB (s.drop (j1 + 1))
    rw [List.length_drop] at hcw
    by_cases hc : c == 46
    · simp [hc]
      omega
    · simp [hc, h]

theorem signEnd_bounds (s : List Nat) (j2 : Nat) (h : j2 < s.length) :
    j2 + 1 ≤ signEnd s j2 ∧ signEnd s j2 ≤ s.length := by
  unfold signEnd
  cases hsj : s[j2 + 1]? with
  | none =>
    simp [hsj]
    omega
  | some sgn =>
    have hlt := getElem?_some_lt hsj
    by_cases hs2 : sgn == 43 || sgn == 45
    · simp [hs2]
      omega
    · simp [hs2]
      omega

theorem exponentEnd_bounds (s : List Nat) (j2 : Nat) (h : j2 ≤ s.length) :
    j2 ≤ exponentEnd s j2 ∧ exponentEnd s j2 ≤ s.length := by
  unfold exponentEnd
  cases hsj : s[j2]? with
  | none => simp [hsj, h]
  | some c =>
    have hlt := getElem?_some_lt hsj
    have hse := signEnd_bounds s j2 hlt
    have hcw := countWhile_le isAsciiDigitB (s.drop (signEnd s j2))
    rw [List.length_drop] at hcw
    by_cases hc : c == 101 || c == 69
    · simp [hc]
      omega
    · simp [hc, h]

theorem numberEnd_bounds (s : List Nat) (i : Nat) (h : i ≤ s.length) :
    i ≤ numberEnd s i ∧ numberEnd s i ≤ s.length := by
  unfold numberEnd
  have hcw := countWhile_le isAsciiDigitB (s.drop i)
  rw [List.length_drop] at hcw
  have h1 : i + countWhile isAsciiDigitB (s.drop i) ≤ s.length := by omega
  have h2 := fractionEnd_bounds s (i + countWhile isAsciiDigitB (s.drop i)) h1
  have h3 := exponentEnd_bounds s
    (fractionEnd s (i + countWhile isAsciiDigitB (s.drop i))) h2.2
  omega

theorem ascii_byte {s : List Nat} (hs : s.all (fun b => decide (b < 128)) = true)
    {i b : Nat} (h : s[i]? = some b) : b < 128 := by
  have hmem := List.getElem?_mem h
  have := List.all_eq_true.mp hs b hmem
  simpa using this

theorem isCharBoundaryB_ascii {s : List Nat}
    (hs : s.all (fun b => decide (b < 128)) = true) {j : Nat}
    (hj : j ≤ s.length) : isCharBoundaryB s j = true := by
  unfold isCharBoundaryB
  cases hsj : s[j]? with
  | none =>
    have hle := List.getElem?_eq_none_iff.mp hsj
    have : j = s.length := by omega
    simp [this]
  | some b =>
    have := ascii_byte hs hsj
    simp
    omega

theorem sliceB_ascii {s : List Nat}
    (hs : s.all (fun b => decide (b < 128)) = true) {a b : Nat}
    (hab : a ≤ b) (hb : b ≤ s.length) :
    sliceB s a b = some ((s.drop a).take (b - a)) := by
  unfold sliceB
  rw [isCharBoundaryB_ascii hs (Nat.le_trans hab hb), isCharBoundaryB_ascii hs hb]
  simp [hab]

theorem findOp_ascii {s : List Nat}
    (hs : s.all (fun b => decide (b < 128)) = true) {i : Nat}
    (_hi : i ≤ s.length) (l : List (List Nat)) :
    findOp s i l = some none ∨
      ∃ op, findOp s i l = some (some op) ∧ op ∈ l ∧
        i + op.length ≤ s.length ∧ (s.drop i).take op.length = op := by
  induction l with
  | nil => left; simp [findOp]
  | cons op rest ih =>
    by_cases hfit : i + op.length ≤ s.length
    · have hsl := sliceB_ascii hs (by omega : i ≤ i + op.length) hfit
      have harith : i + op.length - i = op.length := by omega
      rw [harith] at hsl
      by_cases heq : ((s.drop i).take op.length == op) = true
      · right
        refine ⟨op, ?_, by simp, hfit, by simpa using heq⟩
        simp [findOp, hfit, hsl, heq]
      · have heqf : ((s.drop i).take op.length == op) = false := by simpa using heq
        rcases ih with h | ⟨op2, h1, h2, h3, h4⟩
        · left
          simp [findOp, hfit, hsl, heqf, h]
        · right
          exact ⟨op2, by simp [findOp, hfit, hsl, heqf, h1], by simp [h2], h3, h4⟩
    · rcases ih with h | ⟨op2, h1, h2, h3, h4⟩
      · left
        simp [findOp, hfit, h]
      · right
        exact ⟨op2, by simp [findOp, hfit, h1], by simp [h2], h3, h4⟩

theorem stripWS_append (a b : List Nat) :
    stripWS (a ++ b) = stripWS a ++ stripWS b := by
  simp [stripWS]

theorem slice_text (s : List Nat) (i j : Nat) (hij : i ≤ j) (hj : j ≤ s.length) :
    stripWS ((s.drop i).take (j - i)) ++ stripWS (s.drop j) = stripWS (s.drop i) := by
  rw [← stripWS_append, ← drop_split s i j hij hj]

/-- Extending a tokenizer result by one emitted non-`Eof` token whose text
accounts for the consumed input. -/
theorem result_cons {s : List Nat} {i j : Nat} {tok : Token} {ts : List Token}
    (hstrip : stripWS (textsJoin ts) = stripWS (s.drop j))
    (hlast : ts.getLast? = some Token.eof) (hcount : ts.count Token.eof = 1)
    (hne : ¬ tok = Token.eof)
    (htext : stripWS (tokenText tok) ++ stripWS (s.drop j) = stripWS (s.drop i)) :
    stripWS (textsJoin (tok :: ts)) = stripWS (s.drop i) ∧
      (tok :: ts).getLast? = some Token.eof ∧
      (tok :: ts).count Token.eof = 1 := by
  refine ⟨?_, ?_, ?_⟩
  · rw [show textsJoin (tok :: ts) = tokenText tok ++ textsJoin ts from by
      simp [textsJoin]]
    rw [stripWS_append, hstrip, htext]
  · cases ts with
    | nil => simp at hlast
    | cons a l => exact hlast
  · simp [List.count_cons, hcount, hne]

theorem stripWS_detokLoop (ts : List Token) :
    ∀ prev, stripWS (detokLoop prev ts) = stripWS (textsJoin ts) := by
  induction ts with
  | nil => intro prev; simp [detokLoop, textsJoin, stripWS]
  | cons t rest ih =>
    intro prev
    by_cases ht : (t == Token.eof) = true
    · have hteq : t = Token.eof := by simpa using ht
      subst hteq
      simp only [detokLoop, textsJoin, List.map_cons, List.flatten_cons]
      rw [if_pos ht, ih prev]
      simp [textsJoin, tokenText, stripWS]
    · simp only [detokLoop]
      rw [if_neg ht]
      have hsp : ∀ (prev2 : Option Token), stripWS
          (match prev2 with
           | some p => if needs_space p t then [32] else []
           | none => []) = [] := by
        intro prev2
        cases prev2 with
        | none => simp [stripWS]
        | some p =>
          by_cases hn : needs_space p t
          · simp [hn, stripWS, isWhitespaceByte]
          · simp [hn, stripWS]
      rw [stripWS_append, stripWS_append, hsp prev, ih (some t)]
      simp [textsJoin, stripWS]

theorem countWhile_cons_pos {p : Nat → Bool} {b : Nat} (l : List Nat)
    (h : p b = true) : countWhile p (b :: l) = countWhile p l + 1 := by
  simp [countWhile, h]

theorem countWhile_cons_zero {p : Nat → Bool} {b : Nat} (l : List Nat)
    (h : p b = false) : countWhile p (b :: l) = 0 := by
  simp [countWhile, h]

/-- The main lemma for the lexer on ASCII input: with enough fuel the loop
returns normally, the concatenated token text equals the remaining input up
to non-newline whitespace, and the result ends in exactly one `Eof`. -/
theorem tokenizeLoop_ascii (s : List Nat)
    (hs : s.all (fun b => decide (b < 128)) = true) :
    ∀ (fuel i : Nat), s.length + 1 ≤ fuel + i →
      ∃ ts, tokenizeLoop s fuel i = some ts ∧
        stripWS (textsJoin ts) = stripWS (s.drop i) ∧
        ts.getLast? = some Token.eof ∧
        ts.count Token.eof = 1 := by
  intro fuel
  induction fuel with
  | zero =>
    intro i hfi
    refine ⟨[Token.eof], rfl, ?_, rfl, rfl⟩
    rw [List.drop_eq_nil_of_le (by omega)]
    simp [textsJoin, tokenText, stripWS]
  | succ fuel ih =>
    intro i hfi
    cases hsi : s[i]? with
    | none =>
      refine ⟨[Token.eof], by simp [tokenizeLoop, hsi], ?_, rfl, rfl⟩
      have hlen := List.getElem?_eq_none_iff.mp hsi
      rw [List.drop_eq_nil_of_le hlen]
      simp [textsJoin, tokenText, stripWS]
    | some ch =>
      have hch : ch < 128 := ascii_byte hs hsi
      have hilt : i < s.length := getElem?_some_lt hsi
      have hdropc : s.drop i = ch :: s.drop (i + 1) := drop_eq_cons_of_getElem? hsi
      by_cases hc1 : (ch == 10) = true
      · obtain ⟨ts, hts, hstrip, hlast, hcount⟩ := ih (i + 1) (by omega)
        have heq : tokenizeLoop s (fuel + 1) i = some (Token.newline :: ts) := by
          simp only [tokenizeLoop, hsi]
          rw [if_pos hc1, hts]
          rfl
        have h10 : ch = 10 := by simpa using hc1
        have htext : stripWS (tokenText Token.newline) ++ stripWS (s.drop (i + 1)) =
            stripWS (s.drop i) := by
          rw [hdropc, h10]
          simp [tokenText, stripWS, isWhitespaceByte]
        obtain ⟨ha, hb, hc⟩ := result_cons hstrip hlast hcount (by simp) htext
        exact ⟨Token.newline :: ts, heq, ha, hb, hc⟩
      · by_cases hc2 : isWhitespaceByte ch = true
        · obtain ⟨ts, hts, hstrip, hlast, hcount⟩ := ih (i + 1) (by omega)
          refine ⟨ts, ?_, ?_, hlast, hcount⟩
          · simp only [tokenizeLoop, hsi]
            rw [if_neg hc1, if_pos hc2]
            exact hts
          · have h10f : (ch == 10) = false := by simpa using hc1
            rw [hstrip, hdropc]
            simp [stripWS, h10f, hc2]
        · by_cases hc3 : (ch == 47 && decide (i + 1 < s.length) &&
              ((s[i+1]?).getD 0 == 47)) = true
          · have hlt1 : i + 1 < s.length := by
              have := hc3
              simp [Bool.and_eq_true] at this
              exact this.1.2
            have hcw := countWhile_le (fun b => !(b == 10)) (s.drop (i + 2))
            rw [List.length_drop] at hcw
            have hjle : i + 2 + countWhile (fun b => !(b == 10)) (s.drop (i + 2)) ≤
                s.length := by omega
            have hjgt : i < i + 2 + countWhile (fun b => !(b == 10)) (s.drop (i + 2)) := by
              omega
            have hsl := sliceB_ascii hs (Nat.le_of_lt hjgt) hjle
            obtain ⟨ts, hts, hstrip, hlast, hcount⟩ :=
              ih (i + 2 + countWhile (fun b => !(b == 10)) (s.drop (i + 2))) (by omega)
            have heq : tokenizeLoop s (fuel + 1) i =
                some (Token.comment ((s.drop i).take
                  (i + 2 + countWhile (fun b => !(b == 10)) (s.drop (i + 2)) - i)) :: ts) := by
              simp only [tokenizeLoop, hsi]
              rw [if_neg hc1, if_neg hc2, if_pos hc3]
              simp only [hsl, hts, Option.map_some']
            have htext : stripWS (tokenText (Token.comment ((s.drop i).take
                (i + 2 + countWhile (fun b => !(b == 10)) (s.drop (i + 2)) - i)))) ++
                stripWS (s.drop (i + 2 + countWhile (fun b => !(b == 10)) (s.drop (i + 2)))) =
                stripWS (s.drop i) := slice_text s i
              (i + 2 + countWhile (fun b => !(b == 10)) (s.drop (i + 2)))
              (Nat.le_of_lt hjgt) hjle
            obtain ⟨ha, hb, hc⟩ := result_cons hstrip hlast hcount (by simp) htext
            exact ⟨_, heq, ha, hb, hc⟩
          · by_cases hc4 : (ch == 47 && decide (i + 1 < s.length) &&
                ((s[i+1]?).getD 0 == 42)) = true
            · have hlt1 : i + 1 < s.length := by
                have := hc4
                simp [Bool.and_eq_true] at this
                exact this.1.2
              have hbl := blockScan_le (s.drop (i + 2))
              rw [List.length_drop] at hbl
              have hjle : i + 2 + blockScan (s.drop (i + 2)) ≤ s.length := by omega
              have hjgt : i < i + 2 + blockScan (s.drop (i + 2)) := by omega
              have hmin : min (i + 2 + blockScan (s.drop (i + 2))) s.length =
                  i + 2 + blockScan (s.drop (i + 2)) := Nat.min_eq_left hjle
              have hsl := sliceB_ascii hs (Nat.le_of_lt hjgt) hjle
              obtain ⟨ts, hts, hstrip, hlast, hcount⟩ :=
                ih (i + 2 + blockScan (s.drop (i + 2))) (by omega)
              have heq : tokenizeLoop s (fuel + 1) i =
                  some (Token.comment ((s.drop i).take
                    (i + 2 + blockScan (s.drop (i + 2)) - i)) :: ts) := by
                simp only [tokenizeLoop, hsi]
                rw [if_neg hc1, if_neg hc2, if_neg hc3, if_pos hc4]
                simp only [hmin, hsl, hts, Option.map_some']
              have htext : stripWS (tokenText (Token.comment ((s.drop i).take
                  (i + 2 + blockScan (s.drop (i + 2)) - i)))) ++
                  stripWS (s.drop (i + 2 + blockScan (s.drop (i + 2)))) =
                  stripWS (s.drop i) := slice_text s i (i + 2 + blockScan (s.drop (i + 2)))
                (Nat.le_of_lt hjgt) hjle
              obtain ⟨ha, hb, hc⟩ := result_cons hstrip hlast hcount (by simp) htext
              exact ⟨_, heq, ha, hb, hc⟩
            · by_cases hc5 : (ch == 34 || ch == 39) = true
              · have hss := stringScan_le ch (s.drop (i + 1))
                rw [List.length_drop] at hss
                have hjgt : i < i + 1 + stringScan ch (s.drop (i + 1)) := by omega
                obtain ⟨ts, hts, hstrip, hlast, hcount⟩ :=
                  ih (i + 1 + stringScan ch (s.drop (i + 1))) (by omega)
                by_cases hover : i + 1 + stringScan ch (s.drop (i + 1)) ≤ s.length
                · have hmin : min (i + 1 + stringScan ch (s.drop (i + 1))) s.length =
                      i + 1 + stringScan ch (s.drop (i + 1)) := Nat.min_eq_left hover
                  have hsl := sliceB_ascii hs (Nat.le_of_lt hjgt) hover
                  have htextS : stripWS (tokenText (Token.stringLit ((s.drop i).take
                      (i + 1 + stringScan ch (s.drop (i + 1)) - i)))) ++
                      stripWS (s.drop (i + 1 + stringScan ch (s.drop (i + 1)))) =
                      stripWS (s.drop i) :=
                    slice_text s i (i + 1 + stringScan ch (s.drop (i + 1)))
                      (Nat.le_of_lt hjgt) hover
                  have htextC : stripWS (tokenText (Token.charLit ((s.drop i).take
                      (i + 1 + stringScan ch (s.drop (i + 1)) - i)))) ++
                      stripWS (s.drop (i + 1 + stringScan ch (s.drop (i + 1)))) =
                      stripWS (s.drop i) :=
                    slice_text s i (i + 1 + stringScan ch (s.drop (i + 1)))
                      (Nat.le_of_lt hjgt) hover
                  by_cases hq : (ch == 34) = true
                  · have heq : tokenizeLoop s (fuel + 1) i =
                        some (Token.stringLit ((s.drop i).take
                          (i + 1 + stringScan ch (s.drop (i + 1)) - i)) :: ts) := by
                      simp only [tokenizeLoop, hsi]
                      rw [if_neg hc1, if_neg hc2, if_neg hc3, if_neg hc4, if_pos hc5]
                      simp only [hmin, hsl, hts, Option.map_some']
                      rw [if_pos hq]
                    obtain ⟨ha, hb, hc⟩ := result_cons hstrip hlast hcount (by simp) htextS
                    exact ⟨_, heq, ha, hb, hc⟩
                  · have heq : tokenizeLoop s (fuel + 1) i =
                        some (Token.charLit ((s.drop i).take
                          (i + 1 + stringScan ch (s.drop (i + 1)) - i)) :: ts) := by
                      simp only [tokenizeLoop, hsi]
                      rw [if_neg hc1, if_neg hc2, if_neg hc3, if_neg hc4, if_pos hc5]
                      simp only [hmin, hsl, hts, Option.map_some']
                      rw [if_neg hq]
                    obtain ⟨ha, hb, hc⟩ := result_cons hstrip hlast hcount (by simp) htextC
                    exact ⟨_, heq, ha, hb, hc⟩
                · have hover' : s.length ≤ i + 1 + stringScan ch (s.drop (i + 1)) := by
                    omega
                  have hmin : min (i + 1 + stringScan ch (s.drop (i + 1))) s.length =
                      s.length := Nat.min_eq_right hover'
                  have hsl := sliceB_ascii hs (Nat.le_of_lt hilt) (Nat.le_refl s.length)
                  have hdropj : s.drop (i + 1 + stringScan ch (s.drop (i + 1))) = [] :=
                    List.drop_eq_nil_of_le hover'
                  have htake : (s.drop i).take (s.length - i) = s.drop i :=
                    List.take_of_length_le (by rw [List.length_drop])
                  have htextS : stripWS (tokenText (Token.stringLit
                      ((s.drop i).take (s.length - i)))) ++
                      stripWS (s.drop (i + 1 + stringScan ch (s.drop (i + 1)))) =
                      stripWS (s.drop i) := by
                    simp only [tokenText]
                    rw [htake, hdropj]
                    simp [stripWS]
                  have htextC : stripWS (tokenText (Token.charLit
                      ((s.drop i).take (s.length - i)))) ++
                      stripWS (s.drop (i + 1 + stringScan ch (s.drop (i + 1)))) =
                      stripWS (s.drop i) := by
                    simp only [tokenText]
                    rw [htake, hdropj]
                    simp [stripWS]
                  by_cases hq : (ch == 34) = true
                  · have heq : tokenizeLoop s (fuel + 1) i =
                        some (Token.stringLit ((s.drop i).take (s.length - i)) :: ts) := by
                      simp only [tokenizeLoop, hsi]
                      rw [if_neg hc1, if_neg hc2, if_neg hc3, if_neg hc4, if_pos hc5]
                      simp only [hmin, hsl, hts, Option.map_some']
                      rw [if_pos hq]
                    obtain ⟨ha, hb, hc⟩ := result_cons hstrip hlast hcount (by simp) htextS
                    exact ⟨_, heq, ha, hb, hc⟩
                  · have heq : tokenizeLoop s (fuel + 1) i =
                        some (Token.charLit ((s.drop i).take (s.length - i)) :: ts) := by
                      simp only [tokenizeLoop, hsi]
                      rw [if_neg hc1, if_neg hc2, if_neg hc3, if_neg hc4, if_pos hc5]
                      simp only [hmin, hsl, hts, Option.map_some']
                      rw [if_neg hq]
                    obtain ⟨ha, hb, hc⟩ := result_cons hstrip hlast hcount (by simp) htextC
                    exact ⟨_, heq, ha, hb, hc⟩
              · by_cases hc6 : (isAsciiDigitB ch ||
                    (ch == 46 && decide (i + 1 < s.length) &&
                      isAsciiDigitB ((s[i+1]?).getD 0))) = true
                · by_cases hhex : (ch == 48 && decide (i + 1 < s.length) &&
                      ((s[i+1]?).getD 0 == 120 || (s[i+1]?).getD 0 == 88)) = true
                  · have hlt1 : i + 1 < s.length := by
                      have := hhex
                      simp [Bool.and_eq_true] at this
                      exact this.1.2
                    have hcw := countWhile_le isAsciiHexDigitB (s.drop (i + 2))
                    rw [List.length_drop] at hcw
                    have hjle : i + 2 + countWhile isAsciiHexDigitB (s.drop (i + 2)) ≤
                        s.length := by omega
                    have hjgt : i < i + 2 + countWhile isAsciiHexDigitB (s.drop (i + 2)) := by
                      omega
                    have hmin : min (i + 2 + countWhile isAsciiHexDigitB (s.drop (i + 2)))
                        s.length = i + 2 + countWhile isAsciiHexDigitB (s.drop (i + 2)) :=
                      Nat.min_eq_left hjle
                    have hsl := sliceB_ascii hs (Nat.le_of_lt hjgt) hjle
                    obtain ⟨ts, hts, hstrip, hlast, hcount⟩ :=
                      ih (i + 2 + countWhile isAsciiHexDigitB (s.drop (i + 2))) (by omega)
                    have heq : tokenizeLoop s (fuel + 1) i =
                        some (Token.number ((s.drop i).take
                          (i + 2 + countWhile isAsciiHexDigitB (s.drop (i + 2)) - i)) :: ts) := by
                      simp only [tokenizeLoop, hsi]
                      rw [if_neg hc1, if_neg hc2, if_neg hc3, if_neg hc4, if_neg hc5,
                        if_pos hc6]
                      rw [if_pos hhex]
                      simp only [hmin, hsl, hts, Option.map_some']
                    have htext : stripWS (tokenText (Token.number ((s.drop i).take
                        (i + 2 + countWhile isAsciiHexDigitB (s.drop (i + 2)) - i)))) ++
                        stripWS (s.drop (i + 2 + countWhile isAsciiHexDigitB (s.drop (i + 2)))) =
                        stripWS (s.drop i) := slice_text s i
                      (i + 2 + countWhile isAsciiHexDigitB (s.drop (i + 2)))
                      (Nat.le_of_lt hjgt) hjle
                    obtain ⟨ha, hb, hc⟩ := result_cons hstrip hlast hcount (by simp) htext
                    exact ⟨_, heq, ha, hb, hc⟩
                  · have hnb := numberEnd_bounds s i (Nat.le_of_lt hilt)
                    have hjgt : i < numberEnd s i := by
                      rcases (by simpa [Bool.or_eq_true, Bool.and_eq_true] using hc6 :
                          isAsciiDigitB ch = true ∨ ((ch = 46 ∧ i + 1 < s.length) ∧
                            isAsciiDigitB ((s[i+1]?).getD 0) = true)) with hdig | ⟨⟨h46, _⟩, _⟩
                      · have hcnt : countWhile isAsciiDigitB (s.drop i) =
                            countWhile isAsciiDigitB (s.drop (i + 1)) + 1 := by
                          rw [hdropc]
                          exact countWhile_cons_pos _ hdig
                        have h1 := fractionEnd_bounds s
                          (i + countWhile isAsciiDigitB (s.drop i)) (by
                            have := countWhile_le isAsciiDigitB (s.drop i)
                            rw [List.length_drop] at this
                            omega)
                        have h2 := exponentEnd_bounds s
                          (fractionEnd s (i + countWhile isAsciiDigitB (s.drop i))) h1.2
                        unfold numberEnd
                        omega
                      · have hcnt : countWhile isAsciiDigitB (s.drop i) = 0 := by
                          rw [hdropc, h46]
                          exact countWhile_cons_zero _ (by decide)
                        have hfe : i + 1 ≤ fractionEnd s
                            (i + countWhile isAsciiDigitB (s.drop i)) := by
                          rw [hcnt]
                          unfold fractionEnd
                          simp only [Nat.add_zero, hsi, h46]
                          simp
                        have h1 := fractionEnd_bounds s
                          (i + countWhile isAsciiDigitB (s.drop i)) (by
                            rw [hcnt]
                            omega)
                        have h2 := exponentEnd_bounds s
                          (fractionEnd s (i + countWhile isAsciiDigitB (s.drop i))) h1.2
                        unfold numberEnd
                        omega
                    have hmin : min (numberEnd s i) s.length = numberEnd s i :=
                      Nat.min_eq_left hnb.2
                    have hsl := sliceB_ascii hs (Nat.le_of_lt hjgt) hnb.2
                    obtain ⟨ts, hts, hstrip, hlast, hcount⟩ := ih (numberEnd s i) (by omega)
                    have heq : tokenizeLoop s (fuel + 1) i =
                        some (Token.number ((s.drop i).take (numberEnd s i - i)) :: ts) := by
                      simp only [tokenizeLoop, hsi]
                      rw [if_neg hc1, if_neg hc2, if_neg hc3, if_neg hc4, if_neg hc5,
                        if_pos hc6]
                      rw [if_neg hhex]
                      simp only [hmin, hsl, hts, Option.map_some']
                    have htext : stripWS (tokenText (Token.number ((s.drop i).take
                        (numberEnd s i - i)))) ++ stripWS (s.drop (numberEnd s i)) =
                        stripWS (s.drop i) :=
                      slice_text s i (numberEnd s i) (Nat.le_of_lt hjgt) hnb.2
                    obtain ⟨ha, hb, hc⟩ := result_cons hstrip hlast hcount (by simp) htext
                    exact ⟨_, heq, ha, hb, hc⟩
                · by_cases hc7 : (ch == 95 || isAlphabeticByte ch) = true
                  · have hcw := countWhile_le (fun b => b == 95 || isAlphanumericByte b)
                      (s.drop (i + 1))
                    rw [List.length_drop] at hcw
                    have hjle : i + 1 + countWhile (fun b => b == 95 || isAlphanumericByte b)
                        (s.drop (i + 1)) ≤ s.length := by omega
                    have hjgt : i < i + 1 + countWhile (fun b => b == 95 || isAlphanumericByte b)
                        (s.drop (i + 1)) := by omega
                    have hsl := sliceB_ascii hs (Nat.le_of_lt hjgt) hjle
                    obtain ⟨ts, hts, hstrip, hlast, hcount⟩ :=
                      ih (i + 1 + countWhile (fun b => b == 95 || isAlphanumericByte b)
                        (s.drop (i + 1))) (by omega)
                    have heq : tokenizeLoop s (fuel + 1) i =
                        some (Token.identifier ((s.drop i).take
                          (i + 1 + countWhile (fun b => b == 95 || isAlphanumericByte b)
                            (s.drop (i + 1)) - i)) :: ts) := by
                      simp only [tokenizeLoop, hsi]
                      rw [if_neg hc1, if_neg hc2, if_neg hc3, if_neg hc4, if_neg hc5,
                        if_neg hc6, if_pos hc7]
                      simp only [hsl, hts, Option.map_some']
                    have htext : stripWS (tokenText (Token.identifier ((s.drop i).take
                        (i + 1 + countWhile (fun b => b == 95 || isAlphanumericByte b)
                          (s.drop (i + 1)) - i)))) ++
                        stripWS (s.drop (i + 1 + countWhile
                          (fun b => b == 95 || isAlphanumericByte b) (s.drop (i + 1)))) =
                        stripWS (s.drop i) := slice_text s i
                      (i + 1 + countWhile (fun b => b == 95 || isAlphanumericByte b)
                        (s.drop (i + 1))) (Nat.le_of_lt hjgt) hjle
                    obtain ⟨ha, hb, hc⟩ := result_cons hstrip hlast hcount (by simp) htext
                    exact ⟨_, heq, ha, hb, hc⟩
                  · rcases findOp_ascii hs (Nat.le_of_lt hilt) opsList with hnone |
                      ⟨op, hop, hmem, hfit, htake⟩
                    · obtain ⟨ts, hts, hstrip, hlast, hcount⟩ := ih (i + 1) (by omega)
                      have heq : tokenizeLoop s (fuel + 1) i =
                          some (Token.symbol (charToString ch) :: ts) := by
                        simp only [tokenizeLoop, hsi]
                        rw [if_neg hc1, if_neg hc2, if_neg hc3, if_neg hc4, if_neg hc5,
                          if_neg hc6, if_neg hc7]
                        simp only [hnone, hts, Option.map_some']
                      have hchs : charToString ch = [ch] := by
                        unfold charToString
                        rw [if_pos hch]
                      have hkeep : (ch == 10 || !isWhitespaceByte ch) = true := by
                        simp [hc2]
                      have htext : stripWS (tokenText (Token.symbol (charToString ch))) ++
                          stripWS (s.drop (i + 1)) = stripWS (s.drop i) := by
                        rw [hdropc]
                        simp only [tokenText, hchs]
                        rw [show (ch :: s.drop (i + 1)) = [ch] ++ s.drop (i + 1) from rfl,
                          stripWS_append]
                      obtain ⟨ha, hb, hc⟩ := result_cons hstrip hlast hcount (by simp) htext
                      exact ⟨_, heq, ha, hb, hc⟩
                    · have hoplen : 0 < op.length := by
                        have hall : ∀ o ∈ opsList, 0 < o.length := by decide
                        exact hall op hmem
                      obtain ⟨ts, hts, hstrip, hlast, hcount⟩ :=
                        ih (i + op.length) (by omega)
                      have heq : tokenizeLoop s (fuel + 1) i =
                          some (Token.symbol op :: ts) := by
                        simp only [tokenizeLoop, hsi]
                        rw [if_neg hc1, if_neg hc2, if_neg hc3, if_neg hc4, if_neg hc5,
                          if_neg hc6, if_neg hc7]
                        simp only [hop, hts, Option.map_some']
                      have htext : stripWS (tokenText (Token.symbol op)) ++
                          stripWS (s.drop (i + op.length)) = stripWS (s.drop i) := by
                        have := slice_text s i (i + op.length) (by omega) hfit
                        rw [show i + op.length - i = op.length from by omega] at this
                        rw [htake] at this
                        simpa [tokenText] using this
                      obtain ⟨ha, hb, hc⟩ := result_cons hstrip hlast hcount (by simp) htext
                      exact ⟨_, heq, ha, hb, hc⟩

theorem braceLevelAfter_cons (level : Nat) (t : Token) (l : List Token) :
    braceLevelAfter level (t :: l) =
      braceLevelAfter (braceLevelAfter level [t]) l := by
  simp [braceLevelAfter]

theorem findNsEndLoop_level_zero (tokens : List Token) (fuel j : Nat) :
    findNsEndLoop tokens fuel 0 j = j := by
  cases fuel <;> simp [findNsEndLoop]

/-- The namespace-end search on a brace-balanced body: starting at level 1
just inside the block, it stops one past the matching closing brace. -/
theorem findNsEndLoop_balanced (body : List Token) :
    ∀ (tokens rest : List Token) (j level fuel : Nat),
      tokens.drop j = body ++ Token.symbol (bs "\x7d") :: rest →
      (∀ q ∈ body.inits, 1 ≤ braceLevelAfter level q) →
      braceLevelAfter level body = 1 →
      body.length + 1 ≤ fuel →
      findNsEndLoop tokens fuel level j = j + body.length + 1 := by
  induction body with
  | nil =>
    intro tokens rest j level fuel hdrop _hstays hfin hfuel
    obtain ⟨f, rfl⟩ : ∃ f, fuel = f + 1 := ⟨fuel - 1, by omega⟩
    have h0 : tokens[j]? = some (Token.symbol (bs "\x7d")) := by
      simpa using getElem?_of_drop hdrop 0
    have hj : j < tokens.length := lt_length_of_drop_cons hdrop
    have hlev : level = 1 := by simpa [braceLevelAfter] using hfin
    subst hlev
    have hguard : j < tokens.length ∧ 0 < (1 : Nat) := ⟨hj, by omega⟩
    have hc1 : (bs "\x7d" == bs "\x7b") = false := by decide
    have hc2 : (bs "\x7d" == bs "\x7d") = true := by decide
    simp only [findNsEndLoop, h0, if_pos hguard]
    simp [hc1, hc2, findNsEndLoop_level_zero]
  | cons t body ih =>
    intro tokens rest j level fuel hdrop hstays hfin hfuel
    obtain ⟨f, rfl⟩ : ∃ f, fuel = f + 1 := ⟨fuel - 1, by simp at hfuel; omega⟩
    have h0 : tokens[j]? = some t := by simpa using getElem?_of_drop hdrop 0
    have hd1 : tokens.drop (j + 1) = body ++ Token.symbol (bs "\x7d") :: rest :=
      drop_cons_tail hdrop
    have hj : j < tokens.length := lt_length_of_drop_cons hdrop
    have hlevpos : 1 ≤ level := by
      have := hstays [] (by simp)
      simpa [braceLevelAfter] using this
    have hguard : j < tokens.length ∧ 0 < level := ⟨hj, hlevpos⟩
    have hstep : findNsEndLoop tokens (f + 1) level j =
        findNsEndLoop tokens f (braceLevelAfter level [t]) (j + 1) := by
      cases t <;>
        simp only [findNsEndLoop, h0, if_pos hguard, braceLevelAfter,
          List.foldl_cons, List.foldl_nil]
    rw [hstep]
    have hstays' : ∀ q ∈ body.inits, 1 ≤ braceLevelAfter (braceLevelAfter level [t]) q := by
      intro q hq
      rw [← braceLevelAfter_cons]
      obtain ⟨tl, htl⟩ := (List.mem_inits q body).mp hq
      exact hstays (t :: q) ((List.mem_inits _ _).mpr ⟨tl, by simp [htl]⟩)
    have hfin' : braceLevelAfter (braceLevelAfter level [t]) body = 1 := by
      rw [← braceLevelAfter_cons]; exact hfin
    have hfuel' : body.length + 1 ≤ f := by simp at hfuel; omega
    have := ih tokens rest (j + 1) (braceLevelAfter level [t]) f hd1 hstays' hfin' hfuel'
    rw [this]
    simp
    omega

theorem parenLevelAfter_cons (level : Nat) (t : Token) (l : List Token) :
    parenLevelAfter level (t :: l) =
      parenLevelAfter (parenLevelAfter level [t]) l := by
  simp [parenLevelAfter]

theorem parenScanLoop_level_zero (tokens : List Token) (fuel p : Nat) :
    parenScanLoop tokens fuel 0 p = ([], p) := by
  cases fuel <;> simp [parenScanLoop]

/-- The method-call argument scan on a parenthesis-balanced argument list:
it collects exactly the argument tokens and stops one past the matching
closing parenthesis. -/
theorem parenScanLoop_balanced (args : List Token) :
    ∀ (tokens rest : List Token) (p level fuel : Nat),
      tokens.drop p = args ++ Token.symbol (bs ")") :: rest →
      (∀ q ∈ args.inits, 1 ≤ parenLevelAfter level q) →
      parenLevelAfter level args = 1 →
      args.length + 1 ≤ fuel →
      parenScanLoop tokens fuel level p = (args, p + args.length + 1) := by
  induction args with
  | nil =>
    intro tokens rest p level fuel hdrop _hstays hfin hfuel
    obtain ⟨f, rfl⟩ : ∃ f, fuel = f + 1 := ⟨fuel - 1, by omega⟩
    have h0 : tokens[p]? = some (Token.symbol (bs ")")) := by
      simpa using getElem?_of_drop hdrop 0
    have hp : p < tokens.length := lt_length_of_drop_cons hdrop
    have hlev : level = 1 := by simpa [parenLevelAfter] using hfin
    subst hlev
    have hguard : p < tokens.length ∧ 0 < (1 : Nat) := ⟨hp, by omega⟩
    have hc1 : (bs ")" == bs "(") = false := by decide
    have hc2 : (bs ")" == bs ")") = true := by decide
    simp only [parenScanLoop, h0, if_pos hguard]
    simp [hc1, hc2, parenScanLoop_level_zero]
  | cons t args ih =>
    intro tokens rest p level fuel hdrop hstays hfin hfuel
    obtain ⟨f, rfl⟩ : ∃ f, fuel = f + 1 := ⟨fuel - 1, by simp at hfuel; omega⟩
    have h0 : tokens[p]? = some t := by simpa using getElem?_of_drop hdrop 0
    have hd1 : tokens.drop (p + 1) = args ++ Token.symbol (bs ")") :: rest :=
      drop_cons_tail hdrop
    have hp : p < tokens.length := lt_length_of_drop_cons hdrop
    have hlevpos : 1 ≤ level := by
      have := hstays [] (by simp)
      simpa [parenLevelAfter] using this
    have hguard : p < tokens.length ∧ 0 < level := ⟨hp, hlevpos⟩
    have hlev1 : 1 ≤ parenLevelAfter level [t] := by
      refine hstays [t] ((List.mem_inits _ _).mpr ⟨args, rfl⟩)
    have hstays' : ∀ q ∈ args.inits, 1 ≤ parenLevelAfter (parenLevelAfter level [t]) q := by
      intro q hq
      obtain ⟨tl, htl⟩ := (List.mem_inits q args).mp hq
      rw [← parenLevelAfter_cons]
      exact hstays (t :: q) ((List.mem_inits _ _).mpr ⟨tl, by simp [htl]⟩)
    have hfin' : parenLevelAfter (parenLevelAfter level [t]) args = 1 := by
      rw [← parenLevelAfter_cons]; exact hfin
    have hfuel' : args.length + 1 ≤ f := by simp at hfuel; omega
    have ihr := ih tokens rest (p + 1) (parenLevelAfter level [t]) f hd1 hstays' hfin' hfuel'
    cases t with
    | symbol s =>
      by_cases h1 : s = bs "("
      · have hb1 : (s == bs "(") = true := by simp [h1]
        have hlvl : parenLevelAfter level [Token.symbol s] = level + 1 := by
          simp [parenLevelAfter, h1]
        rw [hlvl] at ihr
        have ihr1 : (parenScanLoop tokens f (level + 1) (p + 1)).1 = args := by rw [ihr]
        have ihr2 : (parenScanLoop tokens f (level + 1) (p + 1)).2 =
            p + 1 + args.length + 1 := by rw [ihr]
        simp only [parenScanLoop, h0, if_pos hguard, Option.getD_some, hb1, if_true]
        rw [ihr1, ihr2]
        simp only [Prod.mk.injEq, List.length_cons, true_and, and_true]
        omega
      · by_cases h2 : s = bs ")"
        · have hb1 : (s == bs "(") = false := by simp [h1]
          have hb2 : (s == bs ")") = true := by simp [h2]
          have hlvl : parenLevelAfter level [Token.symbol s] = level - 1 := by
            have hne : ¬ ((bs ")" : List Nat) = bs "(") := by decide
            simp [parenLevelAfter, h2, hne]
          have hpush : 0 < level - 1 := by rw [← hlvl]; exact hlev1
          rw [hlvl] at ihr
          have ihr1 : (parenScanLoop tokens f (level - 1) (p + 1)).1 = args := by rw [ihr]
          have ihr2 : (parenScanLoop tokens f (level - 1) (p + 1)).2 =
              p + 1 + args.length + 1 := by rw [ihr]
          simp only [parenScanLoop, h0, if_pos hguard, Option.getD_some, hb1, hb2,
            Bool.false_eq_true, if_false, if_true, ihr1, ihr2, if_pos hpush]
          simp only [Prod.mk.injEq, List.length_cons, true_and, and_true]
          omega
        · have hb1 : (s == bs "(") = false := by simp [h1]
          have hb2 : (s == bs ")") = false := by simp [h2]
          have hlvl : parenLevelAfter level [Token.symbol s] = level := by
            simp [parenLevelAfter, h1, h2]
          rw [hlvl] at ihr
          have ihr1 : (parenScanLoop tokens f level (p + 1)).1 = args := by rw [ihr]
          have ihr2 : (parenScanLoop tokens f level (p + 1)).2 =
              p + 1 + args.length + 1 := by rw [ihr]
          simp only [parenScanLoop, h0, if_pos hguard, Option.getD_some, hb1, hb2,
            Bool.false_eq_true, if_false, ihr1, ihr2]
          simp only [Prod.mk.injEq, List.length_cons, true_and, and_true]
          omega
    | identifier s =>
      have hlvl : parenLevelAfter level [Token.identifier s] = level := by
        simp [parenLevelAfter]
      rw [hlvl] at ihr
      have ihr1 : (parenScanLoop tokens f level (p + 1)).1 = args := by rw [ihr]
      have ihr2 : (parenScanLoop tokens f level (p + 1)).2 = p + 1 + args.length + 1 := by
        rw [ihr]
      simp only [parenScanLoop, h0, if_pos hguard, Option.getD_some, ihr1, ihr2]
      simp only [Prod.mk.injEq, List.length_cons, true_and, and_true]
      omega
    | number s =>
      have hlvl : parenLevelAfter level [Token.number s] = level := by
        simp [parenLevelAfter]
      rw [hlvl] at ihr
      have ihr1 : (parenScanLoop tokens f level (p + 1)).1 = args := by rw [ihr]
      have ihr2 : (parenScanLoop tokens f level (p + 1)).2 = p + 1 + args.length + 1 := by
        rw [ihr]
      simp only [parenScanLoop, h0, if_pos hguard, Option.getD_some, ihr1, ihr2]
      simp only [Prod.mk.injEq, List.length_cons, true_and, and_true]
      omega
    | stringLit s =>
      have hlvl : parenLevelAfter level [Token.stringLit s] = level := by
        simp [parenLevelAfter]
      rw [hlvl] at ihr
      have ihr1 : (parenScanLoop tokens f level (p + 1)).1 = args := by rw [ihr]
      have ihr2 : (parenScanLoop tokens f level (p + 1)).2 = p + 1 + args.length + 1 := by
        rw [ihr]
      simp only [parenScanLoop, h0, if_pos hguard, Option.getD_some, ihr1, ihr2]
      simp only [Prod.mk.injEq, List.length_cons, true_and, and_true]
      omega
    | charLit s =>
      have hlvl : parenLevelAfter level [Token.charLit s] = level := by
        simp [parenLevelAfter]
      rw [hlvl] at ihr
      have ihr1 : (parenScanLoop tokens f level (p + 1)).1 = args := by rw [ihr]
      have ihr2 : (parenScanLoop tokens f level (p + 1)).2 = p + 1 + args.length + 1 := by
        rw [ihr]
      simp only [parenScanLoop, h0, if_pos hguard, Option.getD_some, ihr1, ihr2]
      simp only [Prod.mk.injEq, List.length_cons, true_and, and_true]
      omega
    | comment s =>
      have hlvl : parenLevelAfter level [Token.comment s] = level := by
        simp [parenLevelAfter]
      rw [hlvl] at ihr
      have ihr1 : (parenScanLoop tokens f level (p + 1)).1 = args := by rw [ihr]
      have ihr2 : (parenScanLoop tokens f level (p + 1)).2 = p + 1 + args.length + 1 := by
        rw [ihr]
      simp only [parenScanLoop, h0, if_pos hguard, Option.getD_some, ihr1, ihr2]
      simp only [Prod.mk.injEq, List.length_cons, true_and, and_true]
      omega
    | newline =>
      have hlvl : parenLevelAfter level [Token.newline] = level := by
        simp [parenLevelAfter]
      rw [hlvl] at ihr
      have ihr1 : (parenScanLoop tokens f level (p + 1)).1 = args := by rw [ihr]
      have ihr2 : (parenScanLoop tokens f level (p + 1)).2 = p + 1 + args.length + 1 := by
        rw [ihr]
      simp only [parenScanLoop, h0, if_pos hguard, Option.getD_some, ihr1, ihr2]
      simp only [Prod.mk.injEq, List.length_cons, true_and, and_true]
      omega
    | eof =>
      have hlvl : parenLevelAfter level [Token.eof] = level := by
        simp [parenLevelAfter]
      rw [hlvl] at ihr
      have ihr1 : (parenScanLoop tokens f level (p + 1)).1 = args := by rw [ihr]
      have ihr2 : (parenScanLoop tokens f level (p + 1)).2 = p + 1 + args.length + 1 := by
        rw [ihr]
      simp only [parenScanLoop, h0, if_pos hguard, Option.getD_some, ihr1, ihr2]
      simp only [Prod.mk.injEq, List.length_cons, true_and, and_true]
      omega

/-! ## Claim C1 -/

set_option maxRecDepth 100000

/-- C1: for the compilation unit `class Point { int x; int y; int getX(){
return self.x ; } }`, running the pipeline (lex, seed the registry, extract
the `Class` entities, lower call sites, emit) replaces the class token span
with the re-lexed tokens of the struct `typedef struct { int x; int y; }
Point;` followed by a newline token and the re-lexed tokens of the function
`int Point_getX(Point self){ return self.x ; }` (the trailing `Eof` of the
unit is copied through). -/
theorem c1_emitter_concrete :
    (tokenize (bs "class Point \x7b int x; int y; int getX()\x7b return self.x ; \x7d \x7d")).map
      (fun toks =>
        replace_class_tokens
          (parse_function_calls_with_operators toks (seedRegistry toks []))
          (extractClasses toks)) =
    (tokenize (bs "typedef struct \x7b int x; int y; \x7d Point;")).bind
      (fun structToks =>
        (tokenize (bs "int Point_getX(Point self)\x7b return self.x ; \x7d")).map
          (fun fnToks =>
            structToks.filter (fun t => !(t == Token.eof)) ++ [Token.newline] ++
              fnToks.filter (fun t => !(t == Token.eof)) ++ [Token.eof])) := by
  decide

/-! ## Claims C2 and C3: counterexamples to the universally quantified forms -/

/-- C2 counterexample: in the stream `Vec a;Vec c;c + a + b;` the identifier
`a` is declared `Vec a;` and later appears as `a + b`, but the greedy
left-to-right scan consumes `c + a` first, so `a + b` is not rewritten: the
output is `Vec a;Vec c;Vec_operator_add(c, a) + b;` and the call tokens
`Vec_operator_add(a, b)` appear nowhere in it. -/
theorem c2_counterexample :
    parse_function_calls_with_operators
      [Token.identifier (bs "Vec"), Token.identifier (bs "a"), Token.symbol (bs ";"),
       Token.identifier (bs "Vec"), Token.identifier (bs "c"), Token.symbol (bs ";"),
       Token.identifier (bs "c"), Token.symbol (bs "+"), Token.identifier (bs "a"),
       Token.symbol (bs "+"), Token.identifier (bs "b"), Token.symbol (bs ";"),
       Token.eof] [] =
      [Token.identifier (bs "Vec"), Token.identifier (bs "a"), Token.symbol (bs ";"),
       Token.identifier (bs "Vec"), Token.identifier (bs "c"), Token.symbol (bs ";"),
       Token.identifier (bs "Vec_operator_add"), Token.symbol (bs "("),
       Token.identifier (bs "c"), Token.symbol (bs ","), Token.identifier (bs "a"),
       Token.symbol (bs ")"), Token.symbol (bs "+"), Token.identifier (bs "b"),
       Token.symbol (bs ";"), Token.eof] ∧
    ¬ ([Token.identifier (bs "Vec_operator_add"), Token.symbol (bs "("),
        Token.identifier (bs "a"), Token.symbol (bs ","), Token.identifier (bs "b"),
        Token.symbol (bs ")")] <:+:
       parse_function_calls_with_operators
         [Token.identifier (bs "Vec"), Token.identifier (bs "a"), Token.symbol (bs ";"),
          Token.identifier (bs "Vec"), Token.identifier (bs "c"), Token.symbol (bs ";"),
          Token.identifier (bs "c"), Token.symbol (bs "+"), Token.identifier (bs "a"),
          Token.symbol (bs "+"), Token.identifier (bs "b"), Token.symbol (bs ";"),
          Token.eof] []) := by
  decide

/-- C3 counterexample: in the stream `Point p;Point q;q.m(p.getX());` the
identifier `p` is declared `Point p;` and later appears as the method call
`p.getX()`, but that occurrence sits inside the argument list of `q.m(…)`,
which the method-call rule copies verbatim, so `Point_getX(p)` appears
nowhere in the output. -/
theorem c3_counterexample :
    parse_function_calls_with_operators
      [Token.identifier (bs "Point"), Token.identifier (bs "p"), Token.symbol (bs ";"),
       Token.identifier (bs "Point"), Token.identifier (bs "q"), Token.symbol (bs ";"),
       Token.identifier (bs "q"), Token.symbol (bs "."), Token.identifier (bs "m"),
       Token.symbol (bs "("), Token.identifier (bs "p"), Token.symbol (bs "."),
       Token.identifier (bs "getX"), Token.symbol (bs "("), Token.symbol (bs ")"),
       Token.symbol (bs ")"), Token.symbol (bs ";"), Token.eof] [] =
      [Token.identifier (bs "Point"), Token.identifier (bs "p"), Token.symbol (bs ";"),
       Token.identifier (bs "Point"), Token.identifier (bs "q"), Token.symbol (bs ";"),
       Token.identifier (bs "Point_m"), Token.symbol (bs "("), Token.identifier (bs "q"),
       Token.symbol (bs ","), Token.identifier (bs "p"), Token.symbol (bs "."),
       Token.identifier (bs "getX"), Token.symbol (bs "("), Token.symbol (bs ")"),
       Token.symbol (bs ")"), Token.symbol (bs ";"), Token.eof] ∧
    ¬ ([Token.identifier (bs "Point_getX"), Token.symbol (bs "("),
        Token.identifier (bs "p"), Token.symbol (bs ")")] <:+:
       parse_function_calls_with_operators
         [Token.identifier (bs "Point"), Token.identifier (bs "p"), Token.symbol (bs ";"),
          Token.identifier (bs "Point"), Token.identifier (bs "q"), Token.symbol (bs ";"),
          Token.identifier (bs "q"), Token.symbol (bs "."), Token.identifier (bs "m"),
          Token.symbol (bs "("), Token.identifier (bs "p"), Token.symbol (bs "."),
          Token.identifier (bs "getX"), Token.symbol (bs "("), Token.symbol (bs ")"),
          Token.symbol (bs ")"), Token.symbol (bs ";"), Token.eof] []) := by
  decide

/-! ## Claim C4: counterexample -/

/-- C4 counterexample: in `namespace N { class A { } class B { } }` the
class `B` follows the closing brace of class `A`'s body and is still
lexically inside the namespace block, yet the seeding pass registers it as
plain `B` — the pass left the namespace at the first `}`, not at the brace
returning the depth to zero, so the claimed entry `N_B` is not written. -/
theorem c4_counterexample :
    regLookup (seedRegistry
      [Token.identifier (bs "namespace"), Token.identifier (bs "N"), Token.symbol (bs "\x7b"),
       Token.identifier (bs "class"), Token.identifier (bs "A"), Token.symbol (bs "\x7b"),
       Token.symbol (bs "\x7d"),
       Token.identifier (bs "class"), Token.identifier (bs "B"), Token.symbol (bs "\x7b"),
       Token.symbol (bs "\x7d"), Token.symbol (bs "\x7d"), Token.eof] [])
      (bs "B") = some (bs "B") ∧
    ¬ regLookup (seedRegistry
      [Token.identifier (bs "namespace"), Token.identifier (bs "N"), Token.symbol (bs "\x7b"),
       Token.identifier (bs "class"), Token.identifier (bs "A"), Token.symbol (bs "\x7b"),
       Token.symbol (bs "\x7d"),
       Token.identifier (bs "class"), Token.identifier (bs "B"), Token.symbol (bs "\x7b"),
       Token.symbol (bs "\x7d"), Token.symbol (bs "\x7d"), Token.eof] [])
      (bs "B") = some (bs "N_B") := by
  decide

/-! ## Claim C5: counterexample -/

/-- C5 counterexample: on `# import < 1 >` the payload scan stops at the
number token with an empty filename, but the match does not fail silently —
the loop still attempts to read the file named by the partial payload and
aborts the compilation with the read-failure panic (here the file system
has no files), instead of copying the tokens through unchanged. -/
theorem c5_counterexample :
    importLoop (fun _ => none) (fun _ _ => Except.error CErr.fuelOut) 10
      [Token.symbol (bs "#"), Token.identifier (bs "import"), Token.symbol (bs "<"),
       Token.number (bs "1"), Token.symbol (bs ">"), Token.eof] 0 [] =
      Except.error (CErr.importPanic []) := by
  rfl

/-! ## Claims C6, C7, C8: counterexamples -/

/-- C6 counterexample: for the two-byte input `[0xD7, 0xA7]` (the valid
UTF-8 encoding of U+05E7) the lexer turns each byte into a single-character
symbol via `char::to_string`, re-encoding the code points 0xD7 and 0xA7 as
two UTF-8 bytes each, so `detokenize(tokenize(x))` differs from `x` even
after deleting all non-newline whitespace: token text is not preserved. -/
theorem c6_counterexample :
    (tokenize [215, 167]).map (fun ts => stripWS (detokenize ts)) =
      some [195, 151, 194, 167] ∧
    stripWS [215, 167] = [215, 167] ∧
    ¬ ([195, 151, 194, 167] = [215, 167]) := by
  decide

/-- C7 counterexample: for `x = "a . 5"` one application of
detokenize∘tokenize yields `"a.5"`, but re-lexing fuses `.5` into a number
token and the second application yields `"a .5"`, so the composition is not
idempotent after one application. -/
theorem c7_counterexample :
    (tokenize (bs "a . 5")).map detokenize = some (bs "a.5") ∧
    ((tokenize (bs "a . 5")).map detokenize).bind
      (fun y => (tokenize y).map detokenize) = some (bs "a .5") ∧
    ¬ (bs "a.5" = bs "a .5") := by
  decide

/-- C8 counterexample: on the input `"é"` (bytes `[0xC3, 0xA9]`) the
identifier scan starts at the alphabetic-as-Latin-1 lead byte 0xC3, stops
at the continuation byte 0xA9, and slices the `str` at byte index 1 — not a
character boundary — so `tokenize` panics instead of returning a token
sequence. -/
theorem c8_counterexample : tokenize [195, 169] = none := by
  decide

/-! ## Claim C9 -/

/-- C9: the operator-overload declaration `int operator [] (int i) { return
0 ; }` in a class body is not extracted at all — `[]` lexes as the two
symbol tokens `[` `]`, and `parse_operator_overload` requires a `(`
immediately after a single operator-symbol token, so the class-body parse
finds no functions and no operators; the `[]` → `index` suffix applies only
in `OperatorOverload::to_string`, which no parse can reach with `[]`. -/
theorem c9_bracket_operator_not_extracted :
    parse_functions_with_operators
      [Token.identifier (bs "int"), Token.identifier (bs "operator"),
       Token.symbol (bs "["), Token.symbol (bs "]"), Token.symbol (bs "("),
       Token.identifier (bs "int"), Token.identifier (bs "i"), Token.symbol (bs ")"),
       Token.symbol (bs "\x7b"), Token.identifier (bs "return"), Token.number (bs "0"),
       Token.symbol (bs ";"), Token.symbol (bs "\x7d")] (bs "Arr") none = ([], []) ∧
    OperatorOverload.toString
      ⟨bs "Arr", none, bs "[]", bs "int", [bs "int i"],
       [Token.identifier (bs "return"), Token.number (bs "0"), Token.symbol (bs ";")]⟩ =
      bs "int Arr_operator_index(Arr self, int i)\x7breturn 0 ;\x7d" := by
  decide

/-! ## Claim C7: amended theorem -/

/-- C7 amended: detokenize∘tokenize is a fixed point after one application
at every input whose printed form re-lexes to the same token sequence (in
general a second application can differ, see the counterexample). -/
theorem c7_amended_stable_fixed_point (s : List Nat) (ts : List Token)
    (h1 : tokenize s = some ts) (h2 : tokenize (detokenize ts) = some ts) :
    ((tokenize s).map detokenize).bind (fun y => (tokenize y).map detokenize) =
      (tokenize s).map detokenize := by
  rw [h1]
  simp [h2]

/-- Witness for `c7_amended_stable_fixed_point` at the input `"a.5"`. -/
theorem c7_amended_stable_fixed_point_witness :
    tokenize (bs "a.5") =
      some [Token.identifier (bs "a"), Token.number (bs ".5"), Token.eof] ∧
    tokenize (detokenize [Token.identifier (bs "a"), Token.number (bs ".5"), Token.eof]) =
      some [Token.identifier (bs "a"), Token.number (bs ".5"), Token.eof] ∧
    ((tokenize (bs "a.5")).map detokenize).bind
      (fun y => (tokenize y).map detokenize) = (tokenize (bs "a.5")).map detokenize :=
  ⟨by decide, by decide,
   c7_amended_stable_fixed_point (bs "a.5")
     [Token.identifier (bs "a"), Token.number (bs ".5"), Token.eof]
     (by decide) (by decide)⟩

/-! ## Claim C2: amended theorem -/

/-- C2 amended: when the lowering scan reaches a position holding an
identifier `a` that the variable table knows (first matching entry `v`),
directly followed by one of the fourteen binary operator symbols and one
further token, it rewrites the three tokens into
`FullClass_operator_<name>(a, rhs)` — `rhs` being exactly the single
following token and `FullClass` the registry's name for `v`'s type (or the
type itself when unregistered) — and resumes three tokens further on.
Occurrences the scan never reaches (consumed by an earlier rule) are not
rewritten, see the counterexample. -/
theorem c2_amended_binary_rule (fuel i : Nat) (vars : List Variable)
    (reg : Registry) (tokens rest : List Token) (a op : List Nat)
    (v : Variable) (rhs : Token)
    (hdrop : tokens.drop i =
      Token.identifier a :: Token.symbol op :: rhs :: rest)
    (hfind : vars.find? (fun w => w.name == a) = some v)
    (hop : isBinaryOp op = true) :
    lowerLoop vars reg tokens (fuel + 1) i =
      [Token.identifier
         ((regLookup reg v.type_).getD v.type_ ++ bs "_operator_" ++ binOpName op),
       Token.symbol (bs "("), Token.identifier a, Token.symbol (bs ","), rhs,
       Token.symbol (bs ")")] ++ lowerLoop vars reg tokens fuel (i + 3) := by
  have h0 : tokens[i]? = some (Token.identifier a) := by
    have := getElem?_of_drop hdrop 0; simpa using this
  have h1 : tokens[i + 1]? = some (Token.symbol op) := by
    have := getElem?_of_drop hdrop 1; simpa using this
  have h2 : tokens[i + 2]? = some rhs := by
    have := getElem?_of_drop hdrop 2; simpa using this
  have hlt : i + 2 < tokens.length := by
    have := length_sub_of_drop hdrop; simp at this; omega
  have hstep : lowerStep vars reg tokens i =
      some ([Token.identifier
               ((regLookup reg v.type_).getD v.type_ ++ bs "_operator_" ++ binOpName op),
             Token.symbol (bs "("), Token.identifier a, Token.symbol (bs ","), rhs,
             Token.symbol (bs ")")], i + 3) := by
    unfold lowerStep
    simp only [h0, hfind, h1, h2]
    simp [hlt, hop]
  simp only [lowerLoop, h0, hstep]

/-- Witness for `c2_amended_binary_rule` on the stream `a + b` with the
variable table from `Vec a;`. -/
theorem c2_amended_binary_rule_witness :
    ([Token.identifier (bs "a"), Token.symbol (bs "+"), Token.identifier (bs "b"),
      Token.eof] : List Token).drop 0 =
      Token.identifier (bs "a") :: Token.symbol (bs "+") ::
        Token.identifier (bs "b") :: [Token.eof] ∧
    ([(⟨bs "a", bs "Vec"⟩ : Variable)].find? (fun w => w.name == bs "a") =
      some (⟨bs "a", bs "Vec"⟩ : Variable)) ∧
    isBinaryOp (bs "+") = true ∧
    lowerLoop [⟨bs "a", bs "Vec"⟩] []
      [Token.identifier (bs "a"), Token.symbol (bs "+"), Token.identifier (bs "b"),
       Token.eof] (3 + 1) 0 =
      [Token.identifier
         ((regLookup [] (⟨bs "a", bs "Vec"⟩ : Variable).type_).getD
            (⟨bs "a", bs "Vec"⟩ : Variable).type_ ++ bs "_operator_" ++ binOpName (bs "+")),
       Token.symbol (bs "("), Token.identifier (bs "a"), Token.symbol (bs ","),
       Token.identifier (bs "b"), Token.symbol (bs ")")] ++
      lowerLoop [⟨bs "a", bs "Vec"⟩] []
        [Token.identifier (bs "a"), Token.symbol (bs "+"), Token.identifier (bs "b"),
         Token.eof] 3 (0 + 3) :=
  ⟨by decide, by decide, by decide,
   c2_amended_binary_rule 3 0 [⟨bs "a", bs "Vec"⟩] []
     [Token.identifier (bs "a"), Token.symbol (bs "+"), Token.identifier (bs "b"),
      Token.eof] [Token.eof] (bs "a") (bs "+") ⟨bs "a", bs "Vec"⟩
     (Token.identifier (bs "b")) (by decide) (by decide) (by decide)⟩

/-! ## Claim C3: amended theorem -/

/-- C3 amended: when the lowering scan reaches `var . method ( args… )`
with `var` in the variable table (first matching entry `v`) and a
parenthesis-balanced argument list, it produces
`FullClass_method(var, args…)`: the argument tokens are copied verbatim by
the balanced-parenthesis scan, a comma is inserted after `var` exactly when
the argument list is non-empty, and the scan resumes just past the call's
closing parenthesis.  Occurrences the scan never reaches are not rewritten
(see the counterexample). -/
theorem c3_amended_method_rule (fuel i : Nat) (vars : List Variable)
    (reg : Registry) (tokens args rest : List Token) (pv m : List Nat)
    (v : Variable)
    (hdrop : tokens.drop i =
      Token.identifier pv :: Token.symbol (bs ".") :: Token.identifier m ::
        Token.symbol (bs "(") :: (args ++ Token.symbol (bs ")") :: rest))
    (hfind : vars.find? (fun w => w.name == pv) = some v)
    (hbal : parenBalancedB args = true) :
    lowerLoop vars reg tokens (fuel + 1) i =
      [Token.identifier ((regLookup reg v.type_).getD v.type_ ++ bs "_" ++ m),
       Token.symbol (bs "("), Token.identifier pv] ++
      (if args.isEmpty then [] else Token.symbol (bs ",") :: args) ++
      [Token.symbol (bs ")")] ++
      lowerLoop vars reg tokens fuel (i + 4 + args.length + 1) := by
  have hbal' := hbal
  simp only [parenBalancedB, Bool.and_eq_true] at hbal'
  obtain ⟨hstaysB, hfinB⟩ := hbal'
  have hstays : ∀ q ∈ args.inits, 1 ≤ parenLevelAfter 1 q := by
    intro q hq
    have := List.all_eq_true.mp hstaysB q hq
    simpa using this
  have hfin : parenLevelAfter 1 args = 1 := by simpa using hfinB
  have h0 : tokens[i]? = some (Token.identifier pv) := by
    simpa using getElem?_of_drop hdrop 0
  have h1 : tokens[i + 1]? = some (Token.symbol (bs ".")) := by
    simpa using getElem?_of_drop hdrop 1
  have h2 : tokens[i + 2]? = some (Token.identifier m) := by
    simpa using getElem?_of_drop hdrop 2
  have h3 : tokens[i + 3]? = some (Token.symbol (bs "(")) := by
    simpa using getElem?_of_drop hdrop 3
  have hd4 : tokens.drop (i + 4) = args ++ Token.symbol (bs ")") :: rest := by
    have := drop_cons_tail (drop_cons_tail (drop_cons_tail (drop_cons_tail hdrop)))
    simpa [Nat.add_assoc] using this
  have hlenfact : tokens.length - i =
      (Token.identifier pv :: Token.symbol (bs ".") :: Token.identifier m ::
        Token.symbol (bs "(") :: (args ++ Token.symbol (bs ")") :: rest)).length :=
    length_sub_of_drop hdrop
  simp only [List.length_cons, List.length_append] at hlenfact
  have hlt2 : i + 2 < tokens.length := by omega
  have hlt3 : i + 3 < tokens.length := by omega
  have hfuelOK : args.length + 1 ≤ tokens.length + 1 := by omega
  have hscan := parenScanLoop_balanced args tokens rest (i + 4) 1
    (tokens.length + 1) hd4 hstays hfin hfuelOK
  have hscan1 : (parenScanLoop tokens (tokens.length + 1) 1 (i + 4)).1 = args := by
    rw [hscan]
  have hscan2 : (parenScanLoop tokens (tokens.length + 1) 1 (i + 4)).2 =
      i + 4 + args.length + 1 := by rw [hscan]
  have hb1 : isBinaryOp (bs ".") = false := by decide
  have hb2 : (bs "." == bs "++") = false := by decide
  have hb3 : (bs "." == bs "--") = false := by decide
  have hb4 : (bs "." == bs ".") = true := by decide
  have hb5 : (bs "(" == bs "(") = true := by decide
  have hstep : lowerStep vars reg tokens i =
      some ([Token.identifier ((regLookup reg v.type_).getD v.type_ ++ bs "_" ++ m),
             Token.symbol (bs "("), Token.identifier pv] ++
            (if args.isEmpty then [] else Token.symbol (bs ",") :: args) ++
            [Token.symbol (bs ")")], i + 4 + args.length + 1) := by
    unfold lowerStep
    simp only [h0, hfind, h1, h2, h3]
    simp [hlt2, hlt3, hb1, hb2, hb3, hb4, hb5, hscan1, hscan2]
  simp only [lowerLoop, h0, hstep]

/-- Witness for `c3_amended_method_rule` on `p . getX ( ) ;` with the
variable table from `Point p;`. -/
theorem c3_amended_method_rule_witness :
    ([Token.identifier (bs "p"), Token.symbol (bs "."), Token.identifier (bs "getX"),
      Token.symbol (bs "("), Token.symbol (bs ")"), Token.symbol (bs ";"),
      Token.eof] : List Token).drop 0 =
      Token.identifier (bs "p") :: Token.symbol (bs ".") ::
        Token.identifier (bs "getX") :: Token.symbol (bs "(") ::
        (([] : List Token) ++ Token.symbol (bs ")") ::
          [Token.symbol (bs ";"), Token.eof]) ∧
    ([(⟨bs "p", bs "Point"⟩ : Variable)].find? (fun w => w.name == bs "p") =
      some (⟨bs "p", bs "Point"⟩ : Variable)) ∧
    parenBalancedB [] = true ∧
    lowerLoop [⟨bs "p", bs "Point"⟩] []
      [Token.identifier (bs "p"), Token.symbol (bs "."), Token.identifier (bs "getX"),
       Token.symbol (bs "("), Token.symbol (bs ")"), Token.symbol (bs ";"),
       Token.eof] (6 + 1) 0 =
      [Token.identifier
         ((regLookup [] (⟨bs "p", bs "Point"⟩ : Variable).type_).getD
            (⟨bs "p", bs "Point"⟩ : Variable).type_ ++ bs "_" ++ bs "getX"),
       Token.symbol (bs "("), Token.identifier (bs "p")] ++
      (if ([] : List Token).isEmpty then [] else Token.symbol (bs ",") :: []) ++
      [Token.symbol (bs ")")] ++
      lowerLoop [⟨bs "p", bs "Point"⟩] []
        [Token.identifier (bs "p"), Token.symbol (bs "."), Token.identifier (bs "getX"),
         Token.symbol (bs "("), Token.symbol (bs ")"), Token.symbol (bs ";"),
         Token.eof] 6 (0 + 4 + ([] : List Token).length + 1) :=
  ⟨by decide, by decide, by decide,
   c3_amended_method_rule 6 0 [⟨bs "p", bs "Point"⟩] []
     [Token.identifier (bs "p"), Token.symbol (bs "."), Token.identifier (bs "getX"),
      Token.symbol (bs "("), Token.symbol (bs ")"), Token.symbol (bs ";"),
      Token.eof] [] [Token.symbol (bs ";"), Token.eof] (bs "p") (bs "getX")
     ⟨bs "p", bs "Point"⟩ (by decide) (by decide) (by decide)⟩

/-! ## Claim C4: amended theorem -/

/-- C4 amended: in the registry-seeding pass the active namespace is exited
on the first `}` token encountered while one is active — not on the brace
that returns the depth to zero — and a `class C` declaration writes the
registry entry qualified by whatever namespace is active at that moment.
Consequently a class that follows the closing brace of an earlier class
body in the same namespace block is registered unqualified (see the
counterexample). -/
theorem c4_amended_first_brace_exit :
    (∀ (tokens : List Token) (fuel i : Nat) (n : List Nat) (reg : Registry),
      tokens[i]? = some (Token.symbol (bs "\x7d")) →
      seedLoop tokens (fuel + 1) i (some n) reg =
        seedLoop tokens fuel (i + 1) none reg) ∧
    (∀ (tokens : List Token) (fuel i : Nat) (ns : Option (List Nat))
       (reg : Registry) (C : List Nat),
      tokens[i]? = some (Token.identifier (bs "class")) →
      tokens[i + 1]? = some (Token.identifier C) →
      seedLoop tokens (fuel + 1) i ns reg =
        seedLoop tokens fuel (i + 1) ns
          (regInsert C
            (match ns with
             | some n => n ++ bs "_" ++ C
             | none => C) reg)) := by
  constructor
  · intro tokens fuel i n reg h0
    have hns : parse_namespace_declaration tokens i = none := by
      simp [parse_namespace_declaration, h0]
    simp [seedLoop, h0, hns]
  · intro tokens fuel i ns reg C h0 h1
    have hkw : (bs "class" == bs "namespace") = false := by decide
    have hns : parse_namespace_declaration tokens i = none := by
      simp [parse_namespace_declaration, h0, hkw]
    have hne : (Token.identifier (bs "class") == Token.symbol (bs "\x7d")) = false := by
      decide
    simp [seedLoop, h0, h1, hns, hne]

/-- Witness for `c4_amended_first_brace_exit`: the exit rule at a `}` with
namespace `N` active, and the registration rule for `class B` with no
active namespace. -/
theorem c4_amended_first_brace_exit_witness :
    seedLoop [Token.symbol (bs "\x7d"), Token.eof] (4 + 1) 0 (some (bs "N")) [] =
      seedLoop [Token.symbol (bs "\x7d"), Token.eof] 4 1 none [] ∧
    seedLoop [Token.identifier (bs "class"), Token.identifier (bs "B"), Token.eof]
        (4 + 1) 0 none [] =
      seedLoop [Token.identifier (bs "class"), Token.identifier (bs "B"), Token.eof]
        4 1 none (regInsert (bs "B") (bs "B") []) :=
  ⟨c4_amended_first_brace_exit.1 [Token.symbol (bs "\x7d"), Token.eof] 4 0 (bs "N") []
     (by decide),
   c4_amended_first_brace_exit.2
     [Token.identifier (bs "class"), Token.identifier (bs "B"), Token.eof] 4 0 none []
     (bs "B") (by decide) (by decide)⟩

/-! ## Claim C5: amended theorem -/

/-- C5 amended: when the import scan matches `# import <` and a token that
is neither an identifier nor a symbol appears before the closing `>`, the
payload scan stops there — but the match does not fail silently: the loop
still reads the file named by the partial payload, and when that read
fails the whole compilation aborts with the read-failure panic instead of
falling through to ordinary token copying. -/
theorem c5_amended_import_read_attempted
    (fs : List Nat → Option (List Nat))
    (rc : List Nat → Registry → Except CErr (List Nat × Registry))
    (fuel i : Nat) (tokens pay rest : List Token) (bad : Token) (reg : Registry)
    (hdrop : tokens.drop i =
      Token.symbol (bs "#") :: Token.identifier (bs "import") ::
        Token.symbol (bs "<") :: (pay ++ bad :: rest))
    (hpay : pay.all isImportPayloadTok = true)
    (hbad : stopsImportScan bad = true)
    (hfs : fs (payloadText pay) = none) :
    importLoop fs rc (fuel + 1) tokens i reg =
      Except.error (CErr.importPanic (payloadText pay)) := by
  have h0 : tokens[i]? = some (Token.symbol (bs "#")) := by
    simpa using getElem?_of_drop hdrop 0
  have h1 : tokens[i + 1]? = some (Token.identifier (bs "import")) := by
    simpa using getElem?_of_drop hdrop 1
  have h2 : tokens[i + 2]? = some (Token.symbol (bs "<")) := by
    simpa using getElem?_of_drop hdrop 2
  have hd3 : tokens.drop (i + 3) = pay ++ bad :: rest :=
    drop_cons_tail (drop_cons_tail (drop_cons_tail hdrop))
  have hfuelOK : pay.length + 1 ≤ tokens.length + 1 := by
    have := length_sub_of_drop hdrop
    simp at this
    omega
  have hscan := scanPayload_spec pay tokens rest bad (i + 3) [] (tokens.length + 1)
    hd3 hpay hbad hfuelOK
  simp only [importLoop, h0, h1, h2]
  simp [hscan, hfs]

/-- Witness for `c5_amended_import_read_attempted` on
`# import < a 1 > ` with an empty file system. -/
theorem c5_amended_import_read_attempted_witness :
    ([Token.symbol (bs "#"), Token.identifier (bs "import"), Token.symbol (bs "<"),
      Token.identifier (bs "a"), Token.number (bs "1"), Token.symbol (bs ">"),
      Token.eof] : List Token).drop 0 =
      Token.symbol (bs "#") :: Token.identifier (bs "import") ::
        Token.symbol (bs "<") ::
        ([Token.identifier (bs "a")] ++ Token.number (bs "1") ::
          [Token.symbol (bs ">"), Token.eof]) ∧
    ([Token.identifier (bs "a")] : List Token).all isImportPayloadTok = true ∧
    stopsImportScan (Token.number (bs "1")) = true ∧
    importLoop (fun _ => none) (fun _ _ => Except.error CErr.fuelOut) (9 + 1)
      [Token.symbol (bs "#"), Token.identifier (bs "import"), Token.symbol (bs "<"),
       Token.identifier (bs "a"), Token.number (bs "1"), Token.symbol (bs ">"),
       Token.eof] 0 [] =
      Except.error (CErr.importPanic (payloadText [Token.identifier (bs "a")])) :=
  ⟨by decide, by decide, by decide,
   c5_amended_import_read_attempted (fun _ => none)
     (fun _ _ => Except.error CErr.fuelOut) 9 0
     [Token.symbol (bs "#"), Token.identifier (bs "import"), Token.symbol (bs "<"),
      Token.identifier (bs "a"), Token.number (bs "1"), Token.symbol (bs ">"),
      Token.eof]
     [Token.identifier (bs "a")] [Token.symbol (bs ">"), Token.eof]
     (Token.number (bs "1")) [] (by decide) (by decide) (by decide) rfl⟩

/-! ## Claim C6: amended theorem -/

/-- C6 amended: for every ASCII input the round trip
`detokenize(tokenize(x))` reproduces `x` up to whitespace — deleting every
non-newline whitespace byte from the output and from the input yields the
same byte string (token texts, comments and newlines are preserved; only
spaces are canonicalized).  For non-ASCII input the lexer can panic or
re-encode bytes, see the counterexample. -/
theorem c6_amended_ascii_roundtrip (s : List Nat)
    (hs : s.all (fun b => decide (b < 128)) = true) :
    ∃ ts, tokenize s = some ts ∧ stripWS (detokenize ts) = stripWS s := by
  obtain ⟨ts, h1, h2, _, _⟩ := tokenizeLoop_ascii s hs (s.length + 1) 0 (by omega)
  refine ⟨ts, h1, ?_⟩
  rw [show detokenize ts = detokLoop none ts from rfl, stripWS_detokLoop ts none, h2]
  simp

/-- Witness for `c6_amended_ascii_roundtrip` at `"int  x=1; /*c*/"`. -/
theorem c6_amended_ascii_roundtrip_witness :
    ((bs "int  x=1; /*c*/").all (fun b => decide (b < 128)) = true) ∧
    ∃ ts, tokenize (bs "int  x=1; /*c*/") = some ts ∧
      stripWS (detokenize ts) = stripWS (bs "int  x=1; /*c*/") :=
  ⟨by decide, c6_amended_ascii_roundtrip (bs "int  x=1; /*c*/") (by decide)⟩

/-! ## Claim C8: amended theorem -/

/-- C8 amended: on ASCII input the lexer never fails — `tokenize` returns
normally with a token sequence terminated by exactly one `Eof`, and every
unrecognized byte (one at which every other cascade guard is false and the
operator table finds no match) becomes a single-character symbol token:
the loop at such a position emits exactly `Symbol [b]` and advances by
one.  On non-ASCII input `tokenize` can panic, see the counterexample. -/
theorem c8_amended_ascii_no_panic (s : List Nat)
    (hs : s.all (fun b => decide (b < 128)) = true) :
    (∃ ts, tokenize s = some ts ∧ ts.getLast? = some Token.eof ∧
      ts.count Token.eof = 1) ∧
    ∀ i ch, s[i]? = some ch → unrecognizedAt s i = true →
      ∀ fuel, tokenizeLoop s (fuel + 1) i =
        (tokenizeLoop s fuel (i + 1)).map (Token.symbol [ch] :: ·) := by
  constructor
  · obtain ⟨ts, h1, _, h3, h4⟩ := tokenizeLoop_ascii s hs (s.length + 1) 0 (by omega)
    exact ⟨ts, h1, h3, h4⟩
  · intro i ch hsi hun fuel
    have hch : ch < 128 := ascii_byte hs hsi
    simp only [unrecognizedAt, hsi, Bool.and_eq_true, Bool.not_eq_true',
      decide_eq_true_eq] at hun
    obtain ⟨⟨⟨⟨⟨⟨⟨hc1, hc2⟩, hc3⟩, hc4⟩, hc5⟩, hc6⟩, hc7⟩, hfind⟩ := hun
    have hchs : charToString ch = [ch] := by
      unfold charToString
      rw [if_pos hch]
    simp only [tokenizeLoop, hsi]
    rw [if_neg (by simp [hc1]), if_neg (by simp [hc2]), if_neg (by simp [hc3]),
      if_neg (by simp [hc4]), if_neg (by simp [hc5]), if_neg (by simp [hc6]),
      if_neg (by simp [hc7])]
    simp only [hfind, hchs]

/-- Witness for `c8_amended_ascii_no_panic` at `"a @#$ 1.5e+3 \"s\" // c"`
(the bytes `@`, `#`, `$` are unrecognized). -/
theorem c8_amended_ascii_no_panic_witness :
    ((bs "a @#$ 1.5e+3 \"s\" // c").all (fun b => decide (b < 128)) = true) ∧
    ((∃ ts, tokenize (bs "a @#$ 1.5e+3 \"s\" // c") = some ts ∧
        ts.getLast? = some Token.eof ∧ ts.count Token.eof = 1) ∧
      ∀ i ch, (bs "a @#$ 1.5e+3 \"s\" // c")[i]? = some ch →
        unrecognizedAt (bs "a @#$ 1.5e+3 \"s\" // c") i = true →
        ∀ fuel, tokenizeLoop (bs "a @#$ 1.5e+3 \"s\" // c") (fuel + 1) i =
          (tokenizeLoop (bs "a @#$ 1.5e+3 \"s\" // c") fuel (i + 1)).map
            (Token.symbol [ch] :: ·)) :=
  ⟨by decide, c8_amended_ascii_no_panic (bs "a @#$ 1.5e+3 \"s\" // c") (by decide)⟩

/-! ## Claim C10 -/

/-- C10: when the emitter scan is at a `namespace Name {` declaration whose
body is brace-balanced, the output is exactly the recursively processed
body followed by the processed remainder after the matching closing brace:
the `namespace` keyword, the name, the opening `{` and the matching `}` are
all dropped from the output. -/
theorem c10_namespace_erasure (fuel : Nat) (classes : List Class)
    (name : List Nat) (body rest : List Token)
    (hbal : braceBalancedB body = true) :
    replaceLoop classes (fuel + 1)
      (Token.identifier (bs "namespace") :: Token.identifier name ::
        Token.symbol (bs "\x7b") :: (body ++ Token.symbol (bs "\x7d") :: rest)) 0 =
      replaceLoop classes fuel body 0 ++
        replaceLoop classes fuel
          (Token.identifier (bs "namespace") :: Token.identifier name ::
            Token.symbol (bs "\x7b") :: (body ++ Token.symbol (bs "\x7d") :: rest))
          (body.length + 4) := by
  have hbal' := hbal
  simp only [braceBalancedB, Bool.and_eq_true] at hbal'
  obtain ⟨hstaysB, hfinB⟩ := hbal'
  have hstays : ∀ q ∈ body.inits, 1 ≤ braceLevelAfter 1 q := by
    intro q hq
    have := List.all_eq_true.mp hstaysB q hq
    simpa using this
  have hfin : braceLevelAfter 1 body = 1 := by simpa using hfinB
  have hparse : parse_namespace_declaration
      (Token.identifier (bs "namespace") :: Token.identifier name ::
        Token.symbol (bs "\x7b") :: (body ++ Token.symbol (bs "\x7d") :: rest)) 0 =
      some (name, 3) := by
    simp [parse_namespace_declaration]
  have hdrop3 : (Token.identifier (bs "namespace") :: Token.identifier name ::
      Token.symbol (bs "\x7b") :: (body ++ Token.symbol (bs "\x7d") :: rest)).drop 3 =
      body ++ Token.symbol (bs "\x7d") :: rest := rfl
  have hfuelOK : body.length + 1 ≤
      (Token.identifier (bs "namespace") :: Token.identifier name ::
        Token.symbol (bs "\x7b") :: (body ++ Token.symbol (bs "\x7d") :: rest)).length + 1 := by
    simp
    omega
  have hend : find_namespace_end
      (Token.identifier (bs "namespace") :: Token.identifier name ::
        Token.symbol (bs "\x7b") :: (body ++ Token.symbol (bs "\x7d") :: rest)) 3 =
      3 + body.length + 1 :=
    findNsEndLoop_balanced body _ rest 3 1 _ hdrop3 hstays hfin hfuelOK
  have hcontent : ((Token.identifier (bs "namespace") :: Token.identifier name ::
      Token.symbol (bs "\x7b") :: (body ++ Token.symbol (bs "\x7d") :: rest)).drop 3).take
        (3 + body.length + 1 - 1 - 3) = body := by
    rw [hdrop3]
    have harith : 3 + body.length + 1 - 1 - 3 = body.length := by omega
    rw [harith]
    exact List.take_left body _
  simp only [replaceLoop, hparse, List.getElem?_cons_zero, find_namespace_end] at *
  rw [show (3 : Nat) + body.length + 1 = body.length + 4 from by omega] at hend hcontent
  simp only [hend, hcontent]

/-- Witness for `c10_namespace_erasure` on `namespace geo { int }`. -/
theorem c10_namespace_erasure_witness :
    braceBalancedB [Token.identifier (bs "int")] = true ∧
    replaceLoop [] (2 + 1)
      (Token.identifier (bs "namespace") :: Token.identifier (bs "geo") ::
        Token.symbol (bs "\x7b") ::
          ([Token.identifier (bs "int")] ++ Token.symbol (bs "\x7d") :: [Token.eof])) 0 =
      replaceLoop [] 2 [Token.identifier (bs "int")] 0 ++
        replaceLoop [] 2
          (Token.identifier (bs "namespace") :: Token.identifier (bs "geo") ::
            Token.symbol (bs "\x7b") ::
              ([Token.identifier (bs "int")] ++ Token.symbol (bs "\x7d") :: [Token.eof]))
          ([Token.identifier (bs "int")].length + 4) :=
  ⟨by decide,
   c10_namespace_erasure 2 [] (bs "geo") [Token.identifier (bs "int")] [Token.eof]
     (by decide)⟩

end ZLang
